import Mathlib

/-! FastADC: channel table and conversion sequencer.

A shallow embedding of `src/FastADC.h` (class template `FastADC<N>`), followed by the
properties of the channel table and of the interrupt handler body.

Conventions of the embedding.

* The target is AVR (`<avr/io.h>`): `uint8_t`, `uint16_t`, `uint32_t` are naturals reduced
  modulo `2^8`, `2^16`, `2^32` where a store can overflow, and `int` is the 16-bit signed
  integer of avr-gcc.
* The anonymous union `{ uint16_t result; HANDLER handler; }` of a slot is one storage cell
  (`payload`); a handler is identified by its code address.
* Member functions are state passing: they take the instance and return the value together
  with the new instance.
* The hardware registers read or written by the interrupt handler body (`ADC`, `ADMUX`) are
  explicit inputs and outputs; the calls made through stored function pointers are returned
  as a list.
-/

/-- Function pointer type `HANDLER`, a handler being identified by its address. -/
abbrev HANDLER := Nat

/-- Compile-time parameters of an instantiation: the template argument `N` and the
clock macro `F_CPU`, which the header expects from the build. -/
structure FastADC.Build where
  N : Nat
  F_CPU : Nat
deriving DecidableEq, Repr

/-- Macro `ADC_CLOCK_PERIOD_MICROS`, `(1000000 * 128 / F_CPU)`, evaluated in `long`. -/
def FastADC.ADC_CLOCK_PERIOD_MICROS (b : FastADC.Build) : Nat := 1000000 * 128 / b.F_CPU

/-- Member `static const uint16_t samplePeriodMicros = ADC_CLOCK_PERIOD_MICROS * 14`. -/
def FastADC.samplePeriodMicros (b : FastADC.Build) : Nat :=
  (FastADC.ADC_CLOCK_PERIOD_MICROS b * 14) % 65536

/-- One slot, `struct ChannelResult`: the packed metadata byte and the union cell. -/
structure FastADC.ChannelResult where
  type_vRef_channel : Nat
  payload : Nat
deriving DecidableEq, Repr

/-- Union member `result`, the cell read as `uint16_t`. -/
def FastADC.ChannelResult.result (c : FastADC.ChannelResult) : Nat := c.payload % 65536

/-- Union member `handler`, the cell read as a function pointer. -/
def FastADC.ChannelResult.handler (c : FastADC.ChannelResult) : HANDLER := c.payload

/-- Data members of an instance of `FastADC<N>`. -/
structure FastADC where
  perChannelResults : List FastADC.ChannelResult
  numActiveChannels : Nat
  channelSamplePeriodMicros : Nat
  debug : Nat
deriving DecidableEq, Repr

namespace FastADC

/-- Slot `perChannelResults[i]`. -/
def slotAt (s : FastADC) (i : Nat) : ChannelResult :=
  s.perChannelResults.getD i ⟨0, 0⟩

/-- Store into `perChannelResults[i]`. -/
def setSlotAt (s : FastADC) (i : Nat) (c : ChannelResult) : FastADC :=
  { s with perChannelResults := s.perChannelResults.set i c }

/-- The instance built by `getInstance`: a function-local static, hence zero-initialised
storage on which the constructor sets `numActiveChannels(0), debug(0)`. -/
def fresh (b : Build) : FastADC :=
  { perChannelResults := List.replicate b.N ⟨0, 0⟩
    numActiveChannels := 0
    channelSamplePeriodMicros := 0
    debug := 0 }

/-- Conversion of a `bool` to `int`. -/
def boolToNat (flag : Bool) : Nat := if flag then 1 else 0

/-- The byte computed by `encodeChannelAt`:
`(channel & 0x0f) | (vRef<<4 & 0x30) | isCallbackChannel<<7`. -/
def encodeByte (channel vRef : Nat) (isCallbackChannel : Bool) : Nat :=
  ((channel &&& 0x0f) ||| ((vRef <<< 4) &&& 0x30) ||| (boolToNat isCallbackChannel <<< 7)) % 256

/-- Member `encodeChannelAt`: overwrite the metadata byte of slot `i`, keep its union cell. -/
def encodeChannelAt (s : FastADC) (i : Nat) (channel vRef : Nat) (isCallbackChannel : Bool) :
    FastADC :=
  setSlotAt s i { slotAt s i with type_vRef_channel := encodeByte channel vRef isCallbackChannel }

/-- Member `decodeChannelAt`: `type_vRef_channel & 0x0f`. -/
def decodeChannelAt (s : FastADC) (i : Nat) : Nat :=
  (slotAt s i).type_vRef_channel &&& 0x0f

/-- Member `decodeVRefAt`: `type_vRef_channel>>4 & 0x03`. -/
def decodeVRefAt (s : FastADC) (i : Nat) : Nat :=
  ((slotAt s i).type_vRef_channel >>> 4) &&& 0x03

/-- Member `isCallbackChannelAt`: `type_vRef_channel >> 7` converted to `bool`. -/
def isCallbackChannelAt (s : FastADC) (i : Nat) : Bool :=
  decide ((slotAt s i).type_vRef_channel >>> 7 ≠ 0)

/-- The loop of `findChannel` from index `i` with `fuel` iterations left
(`fuel = numActiveChannels - i`). -/
def findChannelLoop (s : FastADC) (channel : Nat) : Nat → Nat → Int
  | 0, _ => -1
  | fuel + 1, i =>
    if decodeChannelAt s i = channel then (i : Int)
    else findChannelLoop s channel fuel (i + 1)

/-- Member `findChannel`: first occupied slot whose decoded channel equals `channel`,
or `-1`. -/
def findChannel (s : FastADC) (channel : Nat) : Int :=
  findChannelLoop s channel s.numActiveChannels 0

/-- Member `findNextChannel`: `-1` without active channels, else
`(afterChannelIndex + 1) % numActiveChannels` with the truncating remainder of C. -/
def findNextChannel (s : FastADC) (afterChannelIndex : Int) : Int :=
  if s.numActiveChannels = 0 then -1
  else (afterChannelIndex + 1).tmod (s.numActiveChannels : Int)

/-- Member `activateChannel`: append a slot when `numActiveChannels < N`. The counter is a
`uint8_t`, so the increment is modulo 256; the period is a `uint16_t`. -/
def activateChannel (b : Build) (s : FastADC) (channel vRef : Nat) (isCallbackChannel : Bool) :
    Int × FastADC :=
  if s.numActiveChannels < b.N then
    let nextActiveIndex := s.numActiveChannels
    let s1 := { s with numActiveChannels := (s.numActiveChannels + 1) % 256 }
    let s2 := encodeChannelAt s1 nextActiveIndex channel vRef isCallbackChannel
    let s3 := { s2 with
      channelSamplePeriodMicros := (samplePeriodMicros b * s2.numActiveChannels) % 65536 }
    ((nextActiveIndex : Int), s3)
  else (-1, s)

/-- Conversion of a `uint16_t` value to `int`, which avr-gcc makes 16 bits wide (two's
complement): values from `0x8000` on become negative. -/
def toInt16 (v : Nat) : Int :=
  if v % 65536 < 32768 then ((v % 65536 : Nat) : Int) else ((v % 65536 : Nat) : Int) - 65536

/-- Member `read`: the cached result of a polling slot returned as `int`, or `-1`. It is a
`const` member and returns no new instance. -/
def read (s : FastADC) (channel : Nat) : Int :=
  let channelIndex := findChannel s channel
  if 0 ≤ channelIndex then
    if !isCallbackChannelAt s channelIndex.toNat then
      toInt16 (slotAt s channelIndex.toNat).result
    else -1
  else -1

/-- Member `reference`: register `channel` in polling mode. -/
def reference (b : Build) (s : FastADC) (channel vRef : Nat) : Bool × FastADC :=
  let channelIndex := findChannel s channel
  if 0 ≤ channelIndex then
    (true, encodeChannelAt s channelIndex.toNat channel vRef false)
  else
    let r := activateChannel b s channel vRef false
    if r.1 < 0 then (false, r.2) else (true, r.2)

/-- Member `handle`: register `channel` in callback mode and store `handler`. -/
def handle (b : Build) (s : FastADC) (channel vRef : Nat) (handler : HANDLER) :
    Bool × FastADC :=
  let channelIndex := findChannel s channel
  let r : Int × FastADC :=
    if 0 ≤ channelIndex then
      (channelIndex, encodeChannelAt s channelIndex.toNat channel vRef true)
    else activateChannel b s channel vRef true
  if r.1 < 0 then (false, r.2)
  else (true, setSlotAt r.2 r.1.toNat { slotAt r.2 r.1.toNat with payload := handler })

/-- One call through a stored function pointer: `handler(result, period)`. -/
structure Invocation where
  handler : HANDLER
  result : Nat
  period : Nat
deriving DecidableEq, Repr

/-- Outcome of one run of the interrupt handler body. -/
structure Firing where
  state : FastADC
  ADMUX : Nat
  calls : List Invocation
deriving DecidableEq, Repr

/-- Member `handleResultThenNextChannel`, with the registers `ADC` and `ADMUX` as inputs.
Handlers are taken not to touch the instance; the closing write to the timer flag register
`TIFR1` concerns no data of the instance and is left out. -/
def handleResultThenNextChannel (s : FastADC) (ADC ADMUX : Nat) : Firing :=
  let s1 := { s with debug := (s.debug + 1) % 4294967296 }
  let result := ADC % 65536
  let channel := (ADMUX % 256) &&& 0x0f
  let channelIndex := findChannel s1 channel
  let delivered : FastADC × List Invocation :=
    if 0 ≤ channelIndex then
      if isCallbackChannelAt s1 channelIndex.toNat then
        (s1, [⟨(slotAt s1 channelIndex.toNat).handler, result, s1.channelSamplePeriodMicros⟩])
      else
        (setSlotAt s1 channelIndex.toNat { slotAt s1 channelIndex.toNat with payload := result },
          [])
    else (s1, [])
  let nextChannelIndex := findNextChannel delivered.1 channelIndex
  let written : Nat :=
    if 0 ≤ nextChannelIndex then
      let nextChannel := decodeChannelAt delivered.1 nextChannelIndex.toNat
      let vRef := decodeVRefAt delivered.1 nextChannelIndex.toNat
      ((vRef <<< 6) ||| (nextChannel &&& 0x0f)) % 256
    else ADMUX
  ⟨delivered.1, written, delivered.2⟩

/-- Representation invariant of an instance of `FastADC<N>`: the array has `N` slots and the
count of active channels stays within it. -/
def WF (b : Build) (s : FastADC) : Prop :=
  s.perChannelResults.length = b.N ∧ s.numActiveChannels ≤ b.N

instance (b : Build) (s : FastADC) : Decidable (WF b s) := by
  unfold WF; infer_instance

/-- A registration call made by the application. -/
inductive Registration where
  | reference (channel vRef : Nat)
  | handle (channel vRef : Nat) (handler : HANDLER)
deriving DecidableEq, Repr

/-- The instance after one registration call. -/
def Registration.apply (b : Build) (s : FastADC) : Registration → FastADC
  | .reference channel vRef => (FastADC.reference b s channel vRef).2
  | .handle channel vRef handler => (FastADC.handle b s channel vRef handler).2

/-- The instance after a sequence of registration calls, oldest first. -/
def registerAll (b : Build) (s : FastADC) (calls : List Registration) : FastADC :=
  calls.foldl (Registration.apply b) s

/-- The instance left by a successful `activateChannel`. -/
def appended (b : Build) (s : FastADC) (channel vRef : Nat) (flag : Bool) : FastADC :=
  { encodeChannelAt { s with numActiveChannels := (s.numActiveChannels + 1) % 256 }
      s.numActiveChannels channel vRef flag with
    channelSamplePeriodMicros :=
      (samplePeriodMicros b * ((s.numActiveChannels + 1) % 256)) % 65536 }

/-- A build of capacity 2 at 16 MHz, used for concrete instances. -/
def demoBuild : Build := ⟨2, 16000000⟩

/-- The instance of `demoBuild` after `reference(3, 0)` on the fresh instance. -/
def demoTable : FastADC := ⟨[⟨3, 0⟩, ⟨0, 0⟩], 1, 112, 0⟩

/-- A build of capacity 256 at 16 MHz. -/
def wrapBuild : Build := ⟨256, 16000000⟩

/-- The instance of `wrapBuild` after 255 calls `reference(16, 0)` on the fresh instance:
255 occupied slots, each with metadata byte 0, and room for one more. -/
def wrapTable : FastADC := ⟨List.replicate 256 ⟨0, 0⟩, 255, 28560, 0⟩

/-- A build of capacity 1 at 16 MHz. -/
def soloBuild : Build := ⟨1, 16000000⟩

/-- The instance of `soloBuild` after `reference(0, 0)` and one run of the interrupt handler
body with `ADMUX = 0` and `ADC = 0xFFFF`: channel 0 in polling mode caching `0xFFFF`. -/
def saturatedTable : FastADC := ⟨[⟨0, 65535⟩], 1, 112, 1⟩

/-- The channel argument of a registration call. -/
def Registration.channel : Registration → Nat
  | .reference channel _ => channel
  | .handle channel _ _ => channel

/-- Something that happens to the instance: a registration call by the application, or one
run of the interrupt handler body with the given register contents. -/
inductive Event where
  | register (r : Registration)
  | fire (ADC ADMUX : Nat)
deriving DecidableEq, Repr

/-- The instance after one event. -/
def Event.apply (b : Build) (s : FastADC) : Event → FastADC
  | .register r => r.apply b s
  | .fire ADC ADMUX => (handleResultThenNextChannel s ADC ADMUX).state

/-- The instance after a sequence of events, oldest first. -/
def runEvents (b : Build) (s : FastADC) (events : List Event) : FastADC :=
  events.foldl (Event.apply b) s

/-- The channel argument of a registration lies in the identity range [0,15]. -/
def Event.channelInRange : Event → Prop
  | .register r => r.channel ≤ 15
  | .fire _ _ => True

/-- The decoded identities of the occupied slots are pairwise distinct. -/
def distinctIdentities (s : FastADC) : Prop :=
  ∀ i j, i < j → j < s.numActiveChannels → decodeChannelAt s i ≠ decodeChannelAt s j

/-- The values written to `ADMUX` by consecutive runs of the interrupt handler body, one run
per element of `adcs` (the `ADC` readings), each run reading the `ADMUX` left by the
previous one and no registration happening in between. -/
def programmed (s : FastADC) (ADMUX : Nat) : List Nat → List Nat
  | [] => []
  | ADC :: rest =>
    (handleResultThenNextChannel s ADC ADMUX).ADMUX ::
      programmed (handleResultThenNextChannel s ADC ADMUX).state
        (handleResultThenNextChannel s ADC ADMUX).ADMUX rest

/-- Three events on `demoBuild`: two registrations and one run of the handler body. -/
def demoEvents : List Event :=
  [.register (.reference 3 0), .register (.handle 5 1 77), .fire 512 3]

/-- The instance of `demoBuild` after `reference(3, 0)` and `handle(5, 1, 77)`. -/
def pairTable : FastADC := ⟨[⟨3, 0⟩, ⟨149, 77⟩], 2, 224, 0⟩

/-- A build of capacity 3 at 16 MHz. -/
def tripleBuild : Build := ⟨3, 16000000⟩

/-- The stored period is the per-conversion period times the count, as a `uint16_t`. -/
def periodScaled (b : Build) (s : FastADC) : Prop :=
  s.channelSamplePeriodMicros = (samplePeriodMicros b * s.numActiveChannels) % 65536

/-- Member `getDebug`: the value of `debug`. -/
def getDebug (s : FastADC) : Nat := s.debug

/-- The build of the scenario: capacity 2, any clock. -/
def scenarioBuild (F_CPU : Nat) : Build := ⟨2, F_CPU⟩

/-- The scenario after `reference(3, 0)`, `handle(5, 1, H)` and the rejected
`reference(7, 0)` on the fresh instance. -/
def scenarioTable (F_CPU : Nat) (H : HANDLER) : FastADC :=
  (reference (scenarioBuild F_CPU)
    (handle (scenarioBuild F_CPU)
      (reference (scenarioBuild F_CPU) (fresh (scenarioBuild F_CPU)) 3 0).2 5 1 H).2 7 0).2

/-- The first run of the handler body in the scenario: `ADC = 512`. -/
def scenarioFirst (F_CPU : Nat) (H : HANDLER) (ADMUX : Nat) : Firing :=
  handleResultThenNextChannel (scenarioTable F_CPU H) 512 ADMUX

/-- The second run of the handler body in the scenario: `ADC = 900`. -/
def scenarioSecond (F_CPU : Nat) (H : HANDLER) (ADMUX0 ADMUX1 : Nat) : Firing :=
  handleResultThenNextChannel (scenarioFirst F_CPU H ADMUX0).state 900 ADMUX1

/-- The instance of `wrapBuild` after 254 calls `reference(16, 0)` on the fresh instance:
254 occupied slots and two free ones. -/
def nearWrapTable : FastADC := ⟨List.replicate 256 ⟨0, 0⟩, 254, 28448, 0⟩

end FastADC


namespace FastADC

/-! ## Bit-level facts about the metadata byte -/

theorem and_15_eq_mod (x : Nat) : x &&& 0x0f = x % 16 :=
  Nat.and_pow_two_sub_one_eq_mod x 4

theorem and_3_eq_mod (x : Nat) : x &&& 0x03 = x % 4 :=
  Nat.and_pow_two_sub_one_eq_mod x 2

theorem shl4_and_48 (v : Nat) : (v <<< 4) &&& 0x30 = 16 * (v % 4) := by
  have h : (0x30 : Nat) = (2 ^ 2 - 1) <<< 4 := by decide
  have h2 : 16 * (v % 4) = (v % 2 ^ 2) <<< 4 := by
    rw [Nat.shiftLeft_eq]; norm_num; omega
  rw [h, h2]
  apply Nat.eq_of_testBit_eq
  intro i
  simp only [Nat.testBit_and, Nat.testBit_shiftLeft, Nat.testBit_mod_two_pow,
    Nat.testBit_two_pow_sub_one]
  cases Nat.testBit v (i - 4) <;> simp

theorem encodeByte_eq (channel vRef : Nat) (flag : Bool) :
    encodeByte channel vRef flag = channel % 16 + 16 * (vRef % 4) + 128 * boolToNat flag := by
  have hc : channel % 16 < 2 ^ 4 := Nat.mod_lt _ (by decide)
  have hv : vRef % 4 < 4 := Nat.mod_lt _ (by decide)
  have hf : boolToNat flag ≤ 1 := by cases flag <;> simp [boolToNat]
  have h1 : (channel % 16) ||| 16 * (vRef % 4) = 16 * (vRef % 4) + channel % 16 := by
    rw [Nat.lor_comm]
    exact (Nat.mul_add_lt_is_or hc (vRef % 4)).symm
  have h2 : 16 * (vRef % 4) + channel % 16 < 2 ^ 7 := by
    have : (2 : Nat) ^ 7 = 128 := by decide
    omega
  have h3 : (16 * (vRef % 4) + channel % 16) ||| 128 * boolToNat flag
      = 128 * boolToNat flag + (16 * (vRef % 4) + channel % 16) := by
    rw [Nat.lor_comm]
    exact (Nat.mul_add_lt_is_or h2 (boolToNat flag)).symm
  unfold encodeByte
  rw [and_15_eq_mod, shl4_and_48, Nat.shiftLeft_eq, h1]
  have h4 : boolToNat flag * 2 ^ 7 = 128 * boolToNat flag := by
    have : (2 : Nat) ^ 7 = 128 := by decide
    rw [this, Nat.mul_comm]
  rw [h4, h3]
  omega

theorem encodeByte_and_15 (channel vRef : Nat) (flag : Bool) :
    encodeByte channel vRef flag &&& 0x0f = channel % 16 := by
  rw [and_15_eq_mod, encodeByte_eq]; omega

theorem encodeByte_vRef (channel vRef : Nat) (flag : Bool) :
    (encodeByte channel vRef flag >>> 4) &&& 0x03 = vRef % 4 := by
  rw [and_3_eq_mod, Nat.shiftRight_eq_div_pow, encodeByte_eq]
  have : (2 : Nat) ^ 4 = 16 := by decide
  rw [this]
  have hf : boolToNat flag ≤ 1 := by cases flag <;> simp [boolToNat]
  omega

theorem encodeByte_shr_7 (channel vRef : Nat) (flag : Bool) :
    encodeByte channel vRef flag >>> 7 = boolToNat flag := by
  rw [Nat.shiftRight_eq_div_pow, encodeByte_eq]
  have : (2 : Nat) ^ 7 = 128 := by decide
  rw [this]
  have hf : boolToNat flag ≤ 1 := by cases flag <;> simp [boolToNat]
  omega

theorem encodeByte_callback (channel vRef : Nat) (flag : Bool) :
    decide (encodeByte channel vRef flag >>> 7 ≠ 0) = flag := by
  rw [encodeByte_shr_7]; cases flag <;> simp [boolToNat]


/-! ## The concrete tables used below -/

theorem demoTable_reached : (reference demoBuild (fresh demoBuild) 3 0).2 = demoTable := by
  decide

theorem pairTable_reached :
    registerAll demoBuild (fresh demoBuild) [.reference 3 0, .handle 5 1 77] = pairTable := by
  decide

/-! ## Slots -/

theorem slotAt_setSlotAt_self (s : FastADC) (i : Nat) (c : ChannelResult)
    (h : i < s.perChannelResults.length) : slotAt (setSlotAt s i c) i = c := by
  simp [slotAt, setSlotAt, List.getD_eq_getElem?_getD, List.getElem?_set, h]

theorem slotAt_setSlotAt_ne (s : FastADC) (i j : Nat) (c : ChannelResult) (h : i ≠ j) :
    slotAt (setSlotAt s i c) j = slotAt s j := by
  simp [slotAt, setSlotAt, List.getD_eq_getElem?_getD, List.getElem?_set, h]

theorem length_setSlotAt (s : FastADC) (i : Nat) (c : ChannelResult) :
    (setSlotAt s i c).perChannelResults.length = s.perChannelResults.length := by
  simp [setSlotAt]

theorem length_encodeChannelAt (s : FastADC) (i channel vRef : Nat) (flag : Bool) :
    (encodeChannelAt s i channel vRef flag).perChannelResults.length
      = s.perChannelResults.length := by
  simp [encodeChannelAt, setSlotAt]

theorem slotAt_encodeChannelAt_self (s : FastADC) (i channel vRef : Nat) (flag : Bool)
    (h : i < s.perChannelResults.length) :
    slotAt (encodeChannelAt s i channel vRef flag) i
      = { slotAt s i with type_vRef_channel := encodeByte channel vRef flag } := by
  unfold encodeChannelAt
  exact slotAt_setSlotAt_self s i _ h

theorem slotAt_encodeChannelAt_ne (s : FastADC) (i j channel vRef : Nat) (flag : Bool)
    (h : i ≠ j) : slotAt (encodeChannelAt s i channel vRef flag) j = slotAt s j := by
  unfold encodeChannelAt
  exact slotAt_setSlotAt_ne s i j _ h

/-! ## The linear search -/

theorem findChannelLoop_spec (s : FastADC) (channel : Nat) (fuel i : Nat) :
    (findChannelLoop s channel fuel i = -1 ∧
        ∀ k, i ≤ k → k < i + fuel → decodeChannelAt s k ≠ channel) ∨
    (∃ j : Nat, findChannelLoop s channel fuel i = (j : Int) ∧ i ≤ j ∧ j < i + fuel ∧
        decodeChannelAt s j = channel ∧
        ∀ k, i ≤ k → k < j → decodeChannelAt s k ≠ channel) := by
  induction fuel generalizing i with
  | zero =>
    left
    refine ⟨rfl, ?_⟩
    intro k h1 h2
    omega
  | succ fuel ih =>
    by_cases hd : decodeChannelAt s i = channel
    · right
      refine ⟨i, ?_, le_refl i, by omega, hd, ?_⟩
      · simp [findChannelLoop, hd]
      · intro k h1 h2; omega
    · have hstep : findChannelLoop s channel (fuel + 1) i
          = findChannelLoop s channel fuel (i + 1) := by
        simp [findChannelLoop, hd]
      rcases ih (i + 1) with ⟨h1, h2⟩ | ⟨j, h1, h2, h3, h4, h5⟩
      · left
        refine ⟨by rw [hstep, h1], ?_⟩
        intro k hk1 hk2
        by_cases hki : k = i
        · rw [hki]; exact hd
        · exact h2 k (by omega) (by omega)
      · right
        refine ⟨j, by rw [hstep, h1], by omega, by omega, h4, ?_⟩
        intro k hk1 hk2
        by_cases hki : k = i
        · rw [hki]; exact hd
        · exact h5 k (by omega) hk2

theorem findChannel_spec (s : FastADC) (channel : Nat) :
    (findChannel s channel = -1 ∧
        ∀ k, k < s.numActiveChannels → decodeChannelAt s k ≠ channel) ∨
    (∃ j : Nat, findChannel s channel = (j : Int) ∧ j < s.numActiveChannels ∧
        decodeChannelAt s j = channel ∧ ∀ k, k < j → decodeChannelAt s k ≠ channel) := by
  rcases findChannelLoop_spec s channel s.numActiveChannels 0 with ⟨h1, h2⟩ | ⟨j, h1, _, h3, h4, h5⟩
  · left
    exact ⟨h1, fun k hk => h2 k (Nat.zero_le k) (by omega)⟩
  · right
    exact ⟨j, h1, by omega, h4, fun k hk => h5 k (Nat.zero_le k) hk⟩

theorem findChannel_neg_iff (s : FastADC) (channel : Nat) :
    findChannel s channel < 0 ↔ findChannel s channel = -1 := by
  rcases findChannel_spec s channel with ⟨h1, _⟩ | ⟨j, h1, _⟩
  · rw [h1]; decide
  · rw [h1]; constructor
    · intro h; omega
    · intro h; omega

theorem findChannel_not_found_iff (s : FastADC) (channel : Nat) :
    findChannel s channel = -1 ↔
      ∀ k, k < s.numActiveChannels → decodeChannelAt s k ≠ channel := by
  rcases findChannel_spec s channel with ⟨h1, h2⟩ | ⟨j, h1, h2, h3, _⟩
  · exact ⟨fun _ => h2, fun _ => h1⟩
  · constructor
    · intro h; rw [h1] at h; omega
    · intro h; exact absurd h3 (h j h2)

/-- The search reads only the decoded channels of the occupied slots. -/
theorem findChannel_congr (s t : FastADC) (channel : Nat)
    (hn : t.numActiveChannels = s.numActiveChannels)
    (hd : ∀ k, k < s.numActiveChannels → decodeChannelAt t k = decodeChannelAt s k) :
    findChannel t channel = findChannel s channel := by
  rcases findChannel_spec s channel with ⟨h1, h2⟩ | ⟨j, h1, h2, h3, h4⟩
  · rw [h1]
    apply (findChannel_not_found_iff t channel).2
    intro k hk
    rw [hn] at hk
    rw [hd k hk]
    exact h2 k hk
  · rw [h1]
    rcases findChannel_spec t channel with ⟨_, g2⟩ | ⟨i, g1, g2, g3, g4⟩
    · exact absurd (by rw [hd j h2]; exact h3) (g2 j (by rw [hn]; exact h2))
    · rw [g1]
      rw [hn] at g2
      have hij : i = j := by
        rcases Nat.lt_trichotomy i j with h | h | h
        · exact absurd (by rw [← hd i g2]; exact g3) (h4 i h)
        · exact h
        · exact absurd (by rw [hd j h2]; exact h3) (g4 j h)
      rw [hij]


/-! ## Case analysis of the registration calls -/

@[simp] theorem numActiveChannels_setSlotAt (s : FastADC) (i : Nat) (c : ChannelResult) :
    (setSlotAt s i c).numActiveChannels = s.numActiveChannels := rfl

@[simp] theorem channelSamplePeriodMicros_setSlotAt (s : FastADC) (i : Nat) (c : ChannelResult) :
    (setSlotAt s i c).channelSamplePeriodMicros = s.channelSamplePeriodMicros := rfl

@[simp] theorem debug_setSlotAt (s : FastADC) (i : Nat) (c : ChannelResult) :
    (setSlotAt s i c).debug = s.debug := rfl

@[simp] theorem numActiveChannels_encodeChannelAt (s : FastADC) (i channel vRef : Nat)
    (flag : Bool) :
    (encodeChannelAt s i channel vRef flag).numActiveChannels = s.numActiveChannels := rfl

@[simp] theorem channelSamplePeriodMicros_encodeChannelAt (s : FastADC) (i channel vRef : Nat)
    (flag : Bool) :
    (encodeChannelAt s i channel vRef flag).channelSamplePeriodMicros
      = s.channelSamplePeriodMicros := rfl

@[simp] theorem debug_encodeChannelAt (s : FastADC) (i channel vRef : Nat) (flag : Bool) :
    (encodeChannelAt s i channel vRef flag).debug = s.debug := rfl

theorem activateChannel_room (b : Build) (s : FastADC) (channel vRef : Nat) (flag : Bool)
    (h : s.numActiveChannels < b.N) :
    activateChannel b s channel vRef flag
      = ((s.numActiveChannels : Int), appended b s channel vRef flag) := by
  simp [activateChannel, h, appended]

theorem activateChannel_full (b : Build) (s : FastADC) (channel vRef : Nat) (flag : Bool)
    (h : ¬ s.numActiveChannels < b.N) :
    activateChannel b s channel vRef flag = (-1, s) := by
  simp [activateChannel, h]

theorem reference_found (b : Build) (s : FastADC) (channel vRef j : Nat)
    (h : findChannel s channel = (j : Int)) :
    reference b s channel vRef = (true, encodeChannelAt s j channel vRef false) := by
  simp [reference, h]

theorem reference_room (b : Build) (s : FastADC) (channel vRef : Nat)
    (h : findChannel s channel = -1) (hn : s.numActiveChannels < b.N) :
    reference b s channel vRef = (true, appended b s channel vRef false) := by
  simp only [reference, h, activateChannel_room b s channel vRef false hn]
  have : ¬ ((s.numActiveChannels : Int) < 0) := by omega
  simp [this]

theorem reference_full (b : Build) (s : FastADC) (channel vRef : Nat)
    (h : findChannel s channel = -1) (hn : ¬ s.numActiveChannels < b.N) :
    reference b s channel vRef = (false, s) := by
  simp [reference, h, activateChannel_full b s channel vRef false hn]

theorem handle_found (b : Build) (s : FastADC) (channel vRef handler j : Nat)
    (h : findChannel s channel = (j : Int)) :
    handle b s channel vRef handler
      = (true, setSlotAt (encodeChannelAt s j channel vRef true) j
          { slotAt (encodeChannelAt s j channel vRef true) j with payload := handler }) := by
  have : ¬ ((j : Int) < 0) := by omega
  simp [handle, h, this]

theorem handle_room (b : Build) (s : FastADC) (channel vRef handler : Nat)
    (h : findChannel s channel = -1) (hn : s.numActiveChannels < b.N) :
    handle b s channel vRef handler
      = (true, setSlotAt (appended b s channel vRef true) s.numActiveChannels
          { slotAt (appended b s channel vRef true) s.numActiveChannels with
            payload := handler }) := by
  have : ¬ ((s.numActiveChannels : Int) < 0) := by omega
  simp [handle, h, activateChannel_room b s channel vRef true hn, this]

theorem handle_full (b : Build) (s : FastADC) (channel vRef handler : Nat)
    (h : findChannel s channel = -1) (hn : ¬ s.numActiveChannels < b.N) :
    handle b s channel vRef handler = (false, s) := by
  simp [handle, h, activateChannel_full b s channel vRef true hn]

@[simp] theorem numActiveChannels_appended (b : Build) (s : FastADC) (channel vRef : Nat)
    (flag : Bool) :
    (appended b s channel vRef flag).numActiveChannels = (s.numActiveChannels + 1) % 256 := rfl

@[simp] theorem channelSamplePeriodMicros_appended (b : Build) (s : FastADC)
    (channel vRef : Nat) (flag : Bool) :
    (appended b s channel vRef flag).channelSamplePeriodMicros
      = (samplePeriodMicros b * ((s.numActiveChannels + 1) % 256)) % 65536 := rfl

@[simp] theorem debug_appended (b : Build) (s : FastADC) (channel vRef : Nat) (flag : Bool) :
    (appended b s channel vRef flag).debug = s.debug := rfl

theorem length_appended (b : Build) (s : FastADC) (channel vRef : Nat) (flag : Bool) :
    (appended b s channel vRef flag).perChannelResults.length
      = s.perChannelResults.length := by
  simp [appended, encodeChannelAt, setSlotAt]

theorem slotAt_appended_self (b : Build) (s : FastADC) (channel vRef : Nat) (flag : Bool)
    (h : s.numActiveChannels < s.perChannelResults.length) :
    slotAt (appended b s channel vRef flag) s.numActiveChannels
      = { slotAt s s.numActiveChannels with
          type_vRef_channel := encodeByte channel vRef flag } := by
  simp [appended, encodeChannelAt, slotAt, setSlotAt, List.getD_eq_getElem?_getD,
    List.getElem?_set, h]

theorem slotAt_appended_ne (b : Build) (s : FastADC) (channel vRef j : Nat) (flag : Bool)
    (h : s.numActiveChannels ≠ j) :
    slotAt (appended b s channel vRef flag) j = slotAt s j := by
  simp [appended, encodeChannelAt, slotAt, setSlotAt, List.getD_eq_getElem?_getD,
    List.getElem?_set, h]

/-- Every registration call has one of three outcomes. -/
theorem reference_cases (b : Build) (s : FastADC) (channel vRef : Nat) :
    (∃ j : Nat, findChannel s channel = (j : Int) ∧ j < s.numActiveChannels ∧
        decodeChannelAt s j = channel ∧
        reference b s channel vRef = (true, encodeChannelAt s j channel vRef false)) ∨
    (findChannel s channel = -1 ∧ s.numActiveChannels < b.N ∧
        reference b s channel vRef = (true, appended b s channel vRef false)) ∨
    (findChannel s channel = -1 ∧ ¬ s.numActiveChannels < b.N ∧
        reference b s channel vRef = (false, s)) := by
  rcases findChannel_spec s channel with ⟨h1, _⟩ | ⟨j, h1, h2, h3, _⟩
  · by_cases hn : s.numActiveChannels < b.N
    · exact Or.inr (Or.inl ⟨h1, hn, reference_room b s channel vRef h1 hn⟩)
    · exact Or.inr (Or.inr ⟨h1, hn, reference_full b s channel vRef h1 hn⟩)
  · exact Or.inl ⟨j, h1, h2, h3, reference_found b s channel vRef j h1⟩

theorem handle_cases (b : Build) (s : FastADC) (channel vRef handler : Nat) :
    (∃ j : Nat, findChannel s channel = (j : Int) ∧ j < s.numActiveChannels ∧
        decodeChannelAt s j = channel ∧
        handle b s channel vRef handler
          = (true, setSlotAt (encodeChannelAt s j channel vRef true) j
              { slotAt (encodeChannelAt s j channel vRef true) j with payload := handler })) ∨
    (findChannel s channel = -1 ∧ s.numActiveChannels < b.N ∧
        handle b s channel vRef handler
          = (true, setSlotAt (appended b s channel vRef true) s.numActiveChannels
              { slotAt (appended b s channel vRef true) s.numActiveChannels with
                payload := handler })) ∨
    (findChannel s channel = -1 ∧ ¬ s.numActiveChannels < b.N ∧
        handle b s channel vRef handler = (false, s)) := by
  rcases findChannel_spec s channel with ⟨h1, _⟩ | ⟨j, h1, h2, h3, _⟩
  · by_cases hn : s.numActiveChannels < b.N
    · exact Or.inr (Or.inl ⟨h1, hn, handle_room b s channel vRef handler h1 hn⟩)
    · exact Or.inr (Or.inr ⟨h1, hn, handle_full b s channel vRef handler h1 hn⟩)
  · exact Or.inl ⟨j, h1, h2, h3, handle_found b s channel vRef handler j h1⟩


/-! ## Capacity -/

theorem numActiveChannels_appended_le (b : Build) (s : FastADC) (channel vRef : Nat)
    (flag : Bool) (h : s.numActiveChannels < b.N) :
    (appended b s channel vRef flag).numActiveChannels ≤ b.N := by
  rw [numActiveChannels_appended]
  have := Nat.mod_le (s.numActiveChannels + 1) 256
  omega

theorem numActiveChannels_reference_le (b : Build) (s : FastADC) (channel vRef : Nat)
    (h : s.numActiveChannels ≤ b.N) :
    (reference b s channel vRef).2.numActiveChannels ≤ b.N := by
  rcases reference_cases b s channel vRef with ⟨j, _, _, _, e⟩ | ⟨_, hn, e⟩ | ⟨_, _, e⟩
  · rw [e]; exact h
  · rw [e]; exact numActiveChannels_appended_le b s channel vRef false hn
  · rw [e]; exact h

theorem numActiveChannels_handle_le (b : Build) (s : FastADC) (channel vRef handler : Nat)
    (h : s.numActiveChannels ≤ b.N) :
    (handle b s channel vRef handler).2.numActiveChannels ≤ b.N := by
  rcases handle_cases b s channel vRef handler with ⟨j, _, _, _, e⟩ | ⟨_, hn, e⟩ | ⟨_, _, e⟩
  · rw [e]; exact h
  · rw [e]; exact numActiveChannels_appended_le b s channel vRef true hn
  · rw [e]; exact h

theorem numActiveChannels_apply_le (b : Build) (s : FastADC) (r : Registration)
    (h : s.numActiveChannels ≤ b.N) : (r.apply b s).numActiveChannels ≤ b.N := by
  cases r with
  | reference channel vRef => exact numActiveChannels_reference_le b s channel vRef h
  | handle channel vRef handler => exact numActiveChannels_handle_le b s channel vRef handler h

theorem numActiveChannels_registerAll_le (b : Build) (calls : List Registration) :
    ∀ s : FastADC, s.numActiveChannels ≤ b.N →
      (registerAll b s calls).numActiveChannels ≤ b.N := by
  induction calls with
  | nil => intro s h; exact h
  | cons r rest ih =>
    intro s h
    exact ih (r.apply b s) (numActiveChannels_apply_le b s r h)

/-- C1: whatever the capacity `N` and whatever finite sequence of `reference` and `handle`
calls is applied to a freshly constructed instance, `numActiveChannels` is at most `N`
after every prefix of the sequence, that is in every intermediate and in the final state. -/
theorem C1_capacity_invariant (b : Build) (calls : List Registration) (n : Nat) :
    (registerAll b (fresh b) (calls.take n)).numActiveChannels ≤ b.N :=
  numActiveChannels_registerAll_le b (calls.take n) (fresh b) (Nat.zero_le b.N)

/-- C2: `reference` and `handle` return false exactly when `findChannel` reports not-found
and `numActiveChannels` is not less than `N`, and a call that returns false hands back the
instance it was given, all members unchanged. -/
theorem C2_rejection_atomic (b : Build) (s : FastADC) (channel vRef : Nat) (handler : HANDLER) :
    ((reference b s channel vRef).1 = false ↔
        (findChannel s channel = -1 ∧ ¬ s.numActiveChannels < b.N)) ∧
    ((reference b s channel vRef).1 = false → (reference b s channel vRef).2 = s) ∧
    ((handle b s channel vRef handler).1 = false ↔
        (findChannel s channel = -1 ∧ ¬ s.numActiveChannels < b.N)) ∧
    ((handle b s channel vRef handler).1 = false →
        (handle b s channel vRef handler).2 = s) := by
  refine ⟨?_, ?_, ?_, ?_⟩
  · rcases reference_cases b s channel vRef with ⟨j, hj, _, _, e⟩ | ⟨h1, hn, e⟩ | ⟨h1, hn, e⟩
    · rw [e, hj]
      constructor
      · intro h; simp at h
      · intro h; omega
    · rw [e]
      constructor
      · intro h; simp at h
      · intro h; exact absurd hn h.2
    · rw [e]
      exact ⟨fun _ => ⟨h1, hn⟩, fun _ => rfl⟩
  · rcases reference_cases b s channel vRef with ⟨j, _, _, _, e⟩ | ⟨_, _, e⟩ | ⟨_, _, e⟩
    · rw [e]; intro h; simp at h
    · rw [e]; intro h; simp at h
    · rw [e]; intro _; rfl
  · rcases handle_cases b s channel vRef handler with
      ⟨j, hj, _, _, e⟩ | ⟨h1, hn, e⟩ | ⟨h1, hn, e⟩
    · rw [e, hj]
      constructor
      · intro h; simp at h
      · intro h; omega
    · rw [e]
      constructor
      · intro h; simp at h
      · intro h; exact absurd hn h.2
    · rw [e]
      exact ⟨fun _ => ⟨h1, hn⟩, fun _ => rfl⟩
  · rcases handle_cases b s channel vRef handler with ⟨j, _, _, _, e⟩ | ⟨_, _, e⟩ | ⟨_, _, e⟩
    · rw [e]; intro h; simp at h
    · rw [e]; intro h; simp at h
    · rw [e]; intro _; rfl

/-- C2 at a full table of capacity 1 holding channel 3: registering channel 5 is rejected by
both calls and the instance is handed back unchanged. -/
theorem C2_rejection_atomic_witness :
    (reference ⟨1, 16000000⟩ ⟨[⟨3, 0⟩], 1, 112, 0⟩ 5 0).1 = false ∧
    (reference ⟨1, 16000000⟩ ⟨[⟨3, 0⟩], 1, 112, 0⟩ 5 0).2 = ⟨[⟨3, 0⟩], 1, 112, 0⟩ ∧
    (handle ⟨1, 16000000⟩ ⟨[⟨3, 0⟩], 1, 112, 0⟩ 5 0 77).1 = false ∧
    (handle ⟨1, 16000000⟩ ⟨[⟨3, 0⟩], 1, 112, 0⟩ 5 0 77).2 = ⟨[⟨3, 0⟩], 1, 112, 0⟩ :=
  ⟨by decide,
   (C2_rejection_atomic ⟨1, 16000000⟩ ⟨[⟨3, 0⟩], 1, 112, 0⟩ 5 0 77).2.1 (by decide),
   by decide,
   (C2_rejection_atomic ⟨1, 16000000⟩ ⟨[⟨3, 0⟩], 1, 112, 0⟩ 5 0 77).2.2.2 (by decide)⟩


/-! ## Decoding a freshly encoded slot -/

theorem decodeChannelAt_of_byte (s : FastADC) (i channel vRef : Nat) (flag : Bool)
    (c : ChannelResult) (h : slotAt s i = { c with type_vRef_channel := encodeByte channel vRef flag }) :
    decodeChannelAt s i = channel &&& 0x0f := by
  unfold decodeChannelAt
  rw [h]
  show encodeByte channel vRef flag &&& 0x0f = channel &&& 0x0f
  rw [encodeByte_and_15, and_15_eq_mod]

theorem decodeVRefAt_of_byte (s : FastADC) (i channel vRef : Nat) (flag : Bool)
    (c : ChannelResult) (h : slotAt s i = { c with type_vRef_channel := encodeByte channel vRef flag }) :
    decodeVRefAt s i = vRef &&& 0x03 := by
  unfold decodeVRefAt
  rw [h]
  show (encodeByte channel vRef flag >>> 4) &&& 0x03 = vRef &&& 0x03
  rw [encodeByte_vRef, and_3_eq_mod]

theorem isCallbackChannelAt_of_byte (s : FastADC) (i channel vRef : Nat) (flag : Bool)
    (c : ChannelResult) (h : slotAt s i = { c with type_vRef_channel := encodeByte channel vRef flag }) :
    isCallbackChannelAt s i = flag := by
  unfold isCallbackChannelAt
  rw [h]
  exact encodeByte_callback channel vRef flag

/-- The three decoders read only the metadata byte. -/
theorem decoders_of_byte_eq (s t : FastADC) (i j : Nat)
    (h : (slotAt t j).type_vRef_channel = (slotAt s i).type_vRef_channel) :
    decodeChannelAt t j = decodeChannelAt s i ∧ decodeVRefAt t j = decodeVRefAt s i ∧
      isCallbackChannelAt t j = isCallbackChannelAt s i := by
  simp [decodeChannelAt, decodeVRefAt, isCallbackChannelAt, h]

theorem decodeChannelAt_lt (s : FastADC) (i : Nat) : decodeChannelAt s i < 16 := by
  unfold decodeChannelAt
  rw [and_15_eq_mod]
  exact Nat.mod_lt _ (by decide)

theorem decodeVRefAt_lt (s : FastADC) (i : Nat) : decodeVRefAt s i < 4 := by
  unfold decodeVRefAt
  rw [and_3_eq_mod]
  exact Nat.mod_lt _ (by decide)

/-! ## Append and re-registration -/

/-- What `reference` does when the channel is not found and a slot is free. -/
theorem reference_appends (b : Build) (s : FastADC) (channel vRef : Nat)
    (hwf : WF b s) (hnf : findChannel s channel = -1)
    (hk : s.numActiveChannels < b.N) (h8 : s.numActiveChannels < 255) :
    (reference b s channel vRef).1 = true ∧
      (reference b s channel vRef).2.numActiveChannels = s.numActiveChannels + 1 ∧
      decodeChannelAt (reference b s channel vRef).2 s.numActiveChannels = channel &&& 0x0f ∧
      decodeVRefAt (reference b s channel vRef).2 s.numActiveChannels = vRef &&& 0x03 ∧
      isCallbackChannelAt (reference b s channel vRef).2 s.numActiveChannels = false ∧
      ∀ j, j ≠ s.numActiveChannels →
        slotAt (reference b s channel vRef).2 j = slotAt s j := by
  have hlen : s.numActiveChannels < s.perChannelResults.length := by rw [hwf.1]; exact hk
  have hmod : (s.numActiveChannels + 1) % 256 = s.numActiveChannels + 1 :=
    Nat.mod_eq_of_lt (by omega)
  rw [reference_room b s channel vRef hnf hk]
  have hs := slotAt_appended_self b s channel vRef false hlen
  refine ⟨rfl, ?_, decodeChannelAt_of_byte _ _ _ _ _ _ hs, decodeVRefAt_of_byte _ _ _ _ _ _ hs,
    isCallbackChannelAt_of_byte _ _ _ _ _ _ hs, ?_⟩
  · simp [hmod]
  · intro j hj
    exact slotAt_appended_ne b s channel vRef j false (Ne.symm hj)

/-- What `handle` does when the channel is not found and a slot is free. -/
theorem handle_appends (b : Build) (s : FastADC) (channel vRef : Nat) (handler : HANDLER)
    (hwf : WF b s) (hnf : findChannel s channel = -1)
    (hk : s.numActiveChannels < b.N) (h8 : s.numActiveChannels < 255) :
    (handle b s channel vRef handler).1 = true ∧
      (handle b s channel vRef handler).2.numActiveChannels = s.numActiveChannels + 1 ∧
      decodeChannelAt (handle b s channel vRef handler).2 s.numActiveChannels
        = channel &&& 0x0f ∧
      decodeVRefAt (handle b s channel vRef handler).2 s.numActiveChannels = vRef &&& 0x03 ∧
      isCallbackChannelAt (handle b s channel vRef handler).2 s.numActiveChannels = true ∧
      (slotAt (handle b s channel vRef handler).2 s.numActiveChannels).handler = handler ∧
      ∀ j, j ≠ s.numActiveChannels →
        slotAt (handle b s channel vRef handler).2 j = slotAt s j := by
  have hlen : s.numActiveChannels < s.perChannelResults.length := by rw [hwf.1]; exact hk
  have hmod : (s.numActiveChannels + 1) % 256 = s.numActiveChannels + 1 :=
    Nat.mod_eq_of_lt (by omega)
  rw [handle_room b s channel vRef handler hnf hk]
  have hs := slotAt_appended_self b s channel vRef true hlen
  have hlen2 : s.numActiveChannels
      < (appended b s channel vRef true).perChannelResults.length := by
    rw [length_appended]; exact hlen
  have hs2 := slotAt_setSlotAt_self (appended b s channel vRef true) s.numActiveChannels
    { slotAt (appended b s channel vRef true) s.numActiveChannels with payload := handler }
    hlen2
  have hs3 : slotAt (setSlotAt (appended b s channel vRef true) s.numActiveChannels
      { slotAt (appended b s channel vRef true) s.numActiveChannels with
        payload := handler }) s.numActiveChannels
      = { ({ type_vRef_channel := 0, payload := handler } : ChannelResult) with
          type_vRef_channel := encodeByte channel vRef true } := by
    rw [hs2, hs]
  refine ⟨rfl, ?_, decodeChannelAt_of_byte _ _ _ _ _ _ hs3,
    decodeVRefAt_of_byte _ _ _ _ _ _ hs3, isCallbackChannelAt_of_byte _ _ _ _ _ _ hs3, ?_, ?_⟩
  · simp [hmod]
  · rw [hs3]; rfl
  · intro j hj
    rw [slotAt_setSlotAt_ne _ _ _ _ (Ne.symm hj)]
    exact slotAt_appended_ne b s channel vRef j true (Ne.symm hj)

/-- C3, as amended: in a well-formed instance where `findChannel channel` is not-found and
`numActiveChannels = k < N` with `k < 255` (so that `k + 1` fits the 8-bit counter),
`reference` returns true, the count becomes `k + 1`, slot `k` decodes to identity
`channel & 0x0f`, selector `vRef & 0x03`, polling mode, and every other slot is unchanged;
`handle` does the same with slot `k` in callback mode and holding the handler. -/
theorem C3_append (b : Build) (s : FastADC) (channel vRef : Nat) (handler : HANDLER)
    (hwf : WF b s) (hnf : findChannel s channel = -1)
    (hk : s.numActiveChannels < b.N) (h8 : s.numActiveChannels < 255) :
    ((reference b s channel vRef).1 = true ∧
      (reference b s channel vRef).2.numActiveChannels = s.numActiveChannels + 1 ∧
      decodeChannelAt (reference b s channel vRef).2 s.numActiveChannels = channel &&& 0x0f ∧
      decodeVRefAt (reference b s channel vRef).2 s.numActiveChannels = vRef &&& 0x03 ∧
      isCallbackChannelAt (reference b s channel vRef).2 s.numActiveChannels = false ∧
      ∀ j, j ≠ s.numActiveChannels →
        slotAt (reference b s channel vRef).2 j = slotAt s j) ∧
    ((handle b s channel vRef handler).1 = true ∧
      (handle b s channel vRef handler).2.numActiveChannels = s.numActiveChannels + 1 ∧
      decodeChannelAt (handle b s channel vRef handler).2 s.numActiveChannels
        = channel &&& 0x0f ∧
      decodeVRefAt (handle b s channel vRef handler).2 s.numActiveChannels = vRef &&& 0x03 ∧
      isCallbackChannelAt (handle b s channel vRef handler).2 s.numActiveChannels = true ∧
      (slotAt (handle b s channel vRef handler).2 s.numActiveChannels).handler = handler ∧
      ∀ j, j ≠ s.numActiveChannels →
        slotAt (handle b s channel vRef handler).2 j = slotAt s j) :=
  ⟨reference_appends b s channel vRef hwf hnf hk h8,
   handle_appends b s channel vRef handler hwf hnf hk h8⟩


/-! ## Filling a table of capacity 256 -/

theorem reference_16_wrapBuild (n p : Nat) (hn : n < 255) :
    reference wrapBuild ⟨List.replicate 256 ⟨0, 0⟩, n, p, 0⟩ 16 0
      = (true, ⟨List.replicate 256 ⟨0, 0⟩, n + 1, (112 * (n + 1)) % 65536, 0⟩) := by
  have hslot : ∀ k, slotAt ⟨List.replicate 256 ⟨0, 0⟩, n, p, 0⟩ k = ⟨0, 0⟩ := by
    intro k
    simp only [slotAt, List.getD_eq_getElem?_getD, List.getElem?_replicate]
    split <;> rfl
  have hnf : findChannel ⟨List.replicate 256 ⟨0, 0⟩, n, p, 0⟩ 16 = -1 := by
    apply (findChannel_not_found_iff _ 16).2
    intro k _
    unfold decodeChannelAt
    rw [hslot]
    decide
  have hroom : (⟨List.replicate 256 ⟨0, 0⟩, n, p, 0⟩ : FastADC).numActiveChannels
      < wrapBuild.N := by
    show n < 256
    omega
  rw [reference_room wrapBuild _ 16 0 hnf hroom]
  have hmod : (n + 1) % 256 = n + 1 := Nat.mod_eq_of_lt (by omega)
  have hbyte : encodeByte 16 0 false = 0 := by decide
  have hspm : samplePeriodMicros wrapBuild = 112 := by decide
  have hslot2 : ∀ q k, slotAt ⟨List.replicate 256 ⟨0, 0⟩, q, p, 0⟩ k = ⟨0, 0⟩ := by
    intro q k
    simp only [slotAt, List.getD_eq_getElem?_getD, List.getElem?_replicate]
    split <;> rfl
  simp only [appended, encodeChannelAt, setSlotAt, hslot2, hbyte, hspm, hmod,
    List.set_replicate_self]

theorem registerAll_16_wrapBuild (m : Nat) :
    ∀ n p : Nat, n + m ≤ 255 → p = (112 * n) % 65536 →
      registerAll wrapBuild ⟨List.replicate 256 ⟨0, 0⟩, n, p, 0⟩
        (List.replicate m (.reference 16 0))
        = ⟨List.replicate 256 ⟨0, 0⟩, n + m, (112 * (n + m)) % 65536, 0⟩ := by
  induction m with
  | zero => intro n p _ hp; rw [hp]; rfl
  | succ m ih =>
    intro n p hnm _
    show registerAll wrapBuild
      (reference wrapBuild ⟨List.replicate 256 ⟨0, 0⟩, n, p, 0⟩ 16 0).2
      (List.replicate m (.reference 16 0)) = _
    rw [reference_16_wrapBuild n p (by omega)]
    have := ih (n + 1) ((112 * (n + 1)) % 65536) (by omega) rfl
    rw [this]
    have e : n + 1 + m = n + (m + 1) := by omega
    rw [e]

/-- The table `wrapTable` is what 255 calls `reference(16, 0)` leave of the fresh instance
of capacity 256. -/
theorem wrapTable_reached :
    registerAll wrapBuild (fresh wrapBuild) (List.replicate 255 (.reference 16 0))
      = wrapTable :=
  registerAll_16_wrapBuild 255 0 0 (by decide) rfl

theorem slotAt_wrapTable (k : Nat) : slotAt wrapTable k = ⟨0, 0⟩ := by
  simp only [slotAt, wrapTable, List.getD_eq_getElem?_getD, List.getElem?_replicate]
  split <;> rfl

theorem findChannel_wrapTable (channel : Nat) (h : channel ≠ 0) :
    findChannel wrapTable channel = -1 := by
  apply (findChannel_not_found_iff wrapTable channel).2
  intro k _
  unfold decodeChannelAt
  rw [slotAt_wrapTable]
  exact Ne.symm h

/-- C3 applied to the table of capacity 2 holding channel 3: channel 5 is appended. -/
theorem C3_append_witness :
    WF demoBuild demoTable ∧ findChannel demoTable 5 = -1 ∧
    (reference demoBuild demoTable 5 1).2.numActiveChannels = 2 ∧
    (slotAt (handle demoBuild demoTable 5 1 77).2 1).handler = 77 :=
  ⟨by decide, by decide,
   (C3_append demoBuild demoTable 5 1 77 (by decide) (by decide) (by decide)
      (by decide)).1.2.1,
   (C3_append demoBuild demoTable 5 1 77 (by decide) (by decide) (by decide)
      (by decide)).2.2.2.2.2.2.1⟩

/-- C3 as stated fails for capacity 256: on the table left by 255 calls `reference(16, 0)`,
with 255 occupied slots and channel 1 not found, `reference(1, 0)` returns true but the
8-bit counter wraps to 0 instead of reaching 256. -/
theorem C3_append_counterexample :
    registerAll wrapBuild (fresh wrapBuild) (List.replicate 255 (.reference 16 0))
      = wrapTable ∧
    WF wrapBuild wrapTable ∧ findChannel wrapTable 1 = -1 ∧
    wrapTable.numActiveChannels = 255 ∧ wrapTable.numActiveChannels < wrapBuild.N ∧
    (reference wrapBuild wrapTable 1 0).1 = true ∧
    (reference wrapBuild wrapTable 1 0).2.numActiveChannels = 0 ∧
    (reference wrapBuild wrapTable 1 0).2.numActiveChannels ≠ 255 + 1 := by
  have hnf := findChannel_wrapTable 1 (by decide)
  have hk : wrapTable.numActiveChannels < wrapBuild.N := by decide
  have hwf : WF wrapBuild wrapTable := by
    constructor
    · exact List.length_replicate 256 _
    · decide
  have h0 : (reference wrapBuild wrapTable 1 0).2.numActiveChannels = 0 := by
    rw [reference_room wrapBuild wrapTable 1 0 hnf hk]
    rfl
  refine ⟨wrapTable_reached, hwf, hnf, rfl, hk, ?_, h0, ?_⟩
  · rw [reference_room wrapBuild wrapTable 1 0 hnf hk]
  · rw [h0]; decide


theorem findChannel_eq_of_first (s : FastADC) (channel j : Nat)
    (hj : j < s.numActiveChannels) (hd : decodeChannelAt s j = channel)
    (hfirst : ∀ k, k < j → decodeChannelAt s k ≠ channel) :
    findChannel s channel = (j : Int) := by
  rcases findChannel_spec s channel with ⟨_, h2⟩ | ⟨i, h1, h2, h3, h4⟩
  · exact absurd hd (h2 j hj)
  · rw [h1]
    rcases Nat.lt_trichotomy i j with h | h | h
    · exact absurd h3 (hfirst i h)
    · rw [h]
    · exact absurd hd (h4 j h)

/-! ## Preservation of the representation invariant -/

theorem WF_fresh (b : Build) : WF b (fresh b) :=
  ⟨List.length_replicate b.N _, Nat.zero_le b.N⟩

theorem WF_setSlotAt (b : Build) (s : FastADC) (i : Nat) (c : ChannelResult) (h : WF b s) :
    WF b (setSlotAt s i c) :=
  ⟨by rw [length_setSlotAt]; exact h.1, h.2⟩

theorem WF_encodeChannelAt (b : Build) (s : FastADC) (i channel vRef : Nat) (flag : Bool)
    (h : WF b s) : WF b (encodeChannelAt s i channel vRef flag) :=
  ⟨by rw [length_encodeChannelAt]; exact h.1, h.2⟩

theorem WF_appended (b : Build) (s : FastADC) (channel vRef : Nat) (flag : Bool)
    (h : WF b s) (hn : s.numActiveChannels < b.N) : WF b (appended b s channel vRef flag) :=
  ⟨by rw [length_appended]; exact h.1, numActiveChannels_appended_le b s channel vRef flag hn⟩

theorem WF_reference (b : Build) (s : FastADC) (channel vRef : Nat) (h : WF b s) :
    WF b (reference b s channel vRef).2 := by
  rcases reference_cases b s channel vRef with ⟨j, _, _, _, e⟩ | ⟨_, hn, e⟩ | ⟨_, _, e⟩
  · rw [e]; exact WF_encodeChannelAt b s j channel vRef false h
  · rw [e]; exact WF_appended b s channel vRef false h hn
  · rw [e]; exact h

theorem WF_handle (b : Build) (s : FastADC) (channel vRef handler : Nat) (h : WF b s) :
    WF b (handle b s channel vRef handler).2 := by
  rcases handle_cases b s channel vRef handler with ⟨j, _, _, _, e⟩ | ⟨_, hn, e⟩ | ⟨_, _, e⟩
  · rw [e]; exact WF_setSlotAt b _ _ _ (WF_encodeChannelAt b s j channel vRef true h)
  · rw [e]; exact WF_setSlotAt b _ _ _ (WF_appended b s channel vRef true h hn)
  · rw [e]; exact h

/-! ## Re-registration in place -/

/-- What `reference` does to a channel that `findChannel` locates at slot `i`. -/
theorem reference_in_place (b : Build) (s : FastADC) (channel vRef i : Nat)
    (hwf : WF b s) (hf : findChannel s channel = (i : Int)) :
    (reference b s channel vRef).1 = true ∧
    (reference b s channel vRef).2.numActiveChannels = s.numActiveChannels ∧
    (reference b s channel vRef).2.channelSamplePeriodMicros = s.channelSamplePeriodMicros ∧
    (∀ j, j ≠ i → slotAt (reference b s channel vRef).2 j = slotAt s j) ∧
    decodeChannelAt (reference b s channel vRef).2 i = decodeChannelAt s i ∧
    decodeVRefAt (reference b s channel vRef).2 i = vRef &&& 0x03 ∧
    isCallbackChannelAt (reference b s channel vRef).2 i = false ∧
    findChannel (reference b s channel vRef).2 channel = (i : Int) := by
  rcases findChannel_spec s channel with ⟨h1, _⟩ | ⟨j, h1, h2, h3, h4⟩
  · rw [h1] at hf; omega
  · have hij : j = i := by rw [h1] at hf; omega
    subst hij
    have hlen : j < s.perChannelResults.length := by rw [hwf.1]; exact lt_of_lt_of_le h2 hwf.2
    rw [reference_found b s channel vRef j hf]
    have hs := slotAt_encodeChannelAt_self s j channel vRef false hlen
    have hne : ∀ k, k ≠ j → slotAt (encodeChannelAt s j channel vRef false) k = slotAt s k :=
      fun k hk => slotAt_encodeChannelAt_ne s j k channel vRef false (Ne.symm hk)
    have hdec : decodeChannelAt (encodeChannelAt s j channel vRef false) j
        = decodeChannelAt s j := by
      rw [decodeChannelAt_of_byte _ _ _ _ _ _ hs, h3, and_15_eq_mod]
      have := decodeChannelAt_lt s j
      rw [h3] at this
      exact Nat.mod_eq_of_lt this
    refine ⟨rfl, rfl, rfl, hne, hdec, decodeVRefAt_of_byte _ _ _ _ _ _ hs,
      isCallbackChannelAt_of_byte _ _ _ _ _ _ hs, ?_⟩
    rw [← h1]
    refine findChannel_congr s (encodeChannelAt s j channel vRef false) channel rfl ?_
    intro k _
    by_cases hkj : k = j
    · rw [hkj]; exact hdec
    · exact (decoders_of_byte_eq s _ k k (by rw [hne k hkj])).1

/-- The fresh instance of a build with `N >= 1` after two `reference` calls of one channel
in [0,15]. -/
theorem reference_twice_fresh (b : Build) (channel r1 r2 : Nat) (hN : 1 ≤ b.N)
    (hc : channel ≤ 15) :
    (reference b (fresh b) channel r1).1 = true ∧
    (reference b (fresh b) channel r1).2.numActiveChannels = 1 ∧
    (reference b (reference b (fresh b) channel r1).2 channel r2).1 = true ∧
    (reference b (reference b (fresh b) channel r1).2 channel r2).2.numActiveChannels = 1 ∧
    decodeChannelAt (reference b (reference b (fresh b) channel r1).2 channel r2).2 0
      = channel ∧
    decodeVRefAt (reference b (reference b (fresh b) channel r1).2 channel r2).2 0
      = r2 &&& 0x03 := by
  have hnf : findChannel (fresh b) channel = -1 := rfl
  have hroom : (fresh b).numActiveChannels < b.N := hN
  have h3 := reference_appends b (fresh b) channel r1 (WF_fresh b) hnf hroom
    (by show 0 < 255; decide)
  have hc15 : channel &&& 0x0f = channel := by
    rw [and_15_eq_mod]; exact Nat.mod_eq_of_lt (by omega)
  have hd0 : decodeChannelAt (reference b (fresh b) channel r1).2 0 = channel := by
    have := h3.2.2.1
    rw [hc15] at this
    exact this
  have hf0 : findChannel (reference b (fresh b) channel r1).2 channel = ((0 : Nat) : Int) :=
    findChannel_eq_of_first _ channel 0 (by rw [h3.2.1]; exact Nat.zero_lt_one) hd0
      (fun k hk => absurd hk (Nat.not_lt_zero k))
  have hC := reference_in_place b (reference b (fresh b) channel r1).2 channel r2 0
    (WF_reference b (fresh b) channel r1 (WF_fresh b)) hf0
  refine ⟨h3.1, h3.2.1, hC.1, ?_, ?_, hC.2.2.2.2.2.1⟩
  · rw [hC.2.1]; exact h3.2.1
  · rw [hC.2.2.2.2.1]; exact hd0

/-- C4: when `findChannel channel = i >= 0` in a well-formed instance,
`reference channel vRef` returns true, leaves `numActiveChannels`,
`channelSamplePeriodMicros` and every slot other than `i` unchanged, and slot `i` decodes to
the same identity, selector `vRef & 0x03`, polling mode. In particular a further `reference`
of the same channel with selector `r2` stores `r2 & 0x03` in that slot without changing
`numActiveChannels`, and on a fresh instance with `N >= 1` two `reference` calls of one
channel in [0,15] end with one active channel carrying the second selector. -/
theorem C4_reregistration_in_place (b : Build) :
    (∀ (s : FastADC) (channel vRef i : Nat), WF b s → findChannel s channel = (i : Int) →
      (reference b s channel vRef).1 = true ∧
      (reference b s channel vRef).2.numActiveChannels = s.numActiveChannels ∧
      (reference b s channel vRef).2.channelSamplePeriodMicros = s.channelSamplePeriodMicros ∧
      (∀ j, j ≠ i → slotAt (reference b s channel vRef).2 j = slotAt s j) ∧
      decodeChannelAt (reference b s channel vRef).2 i = decodeChannelAt s i ∧
      decodeVRefAt (reference b s channel vRef).2 i = vRef &&& 0x03 ∧
      isCallbackChannelAt (reference b s channel vRef).2 i = false) ∧
    (∀ (s : FastADC) (channel r1 r2 i : Nat), WF b s → findChannel s channel = (i : Int) →
      (reference b (reference b s channel r1).2 channel r2).1 = true ∧
      (reference b (reference b s channel r1).2 channel r2).2.numActiveChannels
        = s.numActiveChannels ∧
      decodeChannelAt (reference b (reference b s channel r1).2 channel r2).2 i
        = decodeChannelAt s i ∧
      decodeVRefAt (reference b (reference b s channel r1).2 channel r2).2 i
        = r2 &&& 0x03) ∧
    (∀ (channel r1 r2 : Nat), 1 ≤ b.N → channel ≤ 15 →
      (reference b (fresh b) channel r1).1 = true ∧
      (reference b (fresh b) channel r1).2.numActiveChannels = 1 ∧
      (reference b (reference b (fresh b) channel r1).2 channel r2).1 = true ∧
      (reference b (reference b (fresh b) channel r1).2 channel r2).2.numActiveChannels = 1 ∧
      decodeChannelAt (reference b (reference b (fresh b) channel r1).2 channel r2).2 0
        = channel ∧
      decodeVRefAt (reference b (reference b (fresh b) channel r1).2 channel r2).2 0
        = r2 &&& 0x03) := by
  refine ⟨?_, ?_, ?_⟩
  · intro s channel vRef i hwf hf
    have hA := reference_in_place b s channel vRef i hwf hf
    exact ⟨hA.1, hA.2.1, hA.2.2.1, hA.2.2.2.1, hA.2.2.2.2.1, hA.2.2.2.2.2.1,
      hA.2.2.2.2.2.2.1⟩
  · intro s channel r1 r2 i hwf hf
    have hA := reference_in_place b s channel r1 i hwf hf
    have hB := reference_in_place b (reference b s channel r1).2 channel r2 i
      (WF_reference b s channel r1 hwf) hA.2.2.2.2.2.2.2
    refine ⟨hB.1, ?_, ?_, hB.2.2.2.2.2.1⟩
    · rw [hB.2.1, hA.2.1]
    · rw [hB.2.2.2.2.1, hA.2.2.2.2.1]
  · intro channel r1 r2 hN hc
    exact reference_twice_fresh b channel r1 r2 hN hc

/-- C4 on the table of capacity 2 holding channel 3 in slot 0: registering it again with
selector 2 and then with selector 1 keeps one active channel and stores selector 1. -/
theorem C4_reregistration_in_place_witness :
    WF demoBuild demoTable ∧ findChannel demoTable 3 = ((0 : Nat) : Int) ∧
    decodeVRefAt (reference demoBuild demoTable 3 2).2 0 = 2 ∧
    (reference demoBuild (reference demoBuild demoTable 3 2).2 3 1).2.numActiveChannels = 1 ∧
    decodeVRefAt (reference demoBuild (reference demoBuild (fresh demoBuild) 7 2).2 7 1).2 0
      = 1 :=
  ⟨by decide, by decide,
   ((C4_reregistration_in_place demoBuild).1 demoTable 3 2 0 (by decide)
      (by decide)).2.2.2.2.2.1,
   ((C4_reregistration_in_place demoBuild).2.1 demoTable 3 2 1 0 (by decide)
      (by decide)).2.1,
   ((C4_reregistration_in_place demoBuild).2.2 7 2 1 (by decide) (by decide)).2.2.2.2.2⟩


/-! ## Mode switch -/

/-- What `handle` does to a channel that `findChannel` locates at slot `i`. -/
theorem handle_in_place (b : Build) (s : FastADC) (channel vRef i : Nat) (handler : HANDLER)
    (hwf : WF b s) (hf : findChannel s channel = (i : Int)) :
    (handle b s channel vRef handler).1 = true ∧
    (handle b s channel vRef handler).2.numActiveChannels = s.numActiveChannels ∧
    (handle b s channel vRef handler).2.channelSamplePeriodMicros
      = s.channelSamplePeriodMicros ∧
    (∀ j, j ≠ i → slotAt (handle b s channel vRef handler).2 j = slotAt s j) ∧
    decodeChannelAt (handle b s channel vRef handler).2 i = decodeChannelAt s i ∧
    decodeVRefAt (handle b s channel vRef handler).2 i = vRef &&& 0x03 ∧
    isCallbackChannelAt (handle b s channel vRef handler).2 i = true ∧
    (slotAt (handle b s channel vRef handler).2 i).handler = handler ∧
    findChannel (handle b s channel vRef handler).2 channel = (i : Int) := by
  rcases findChannel_spec s channel with ⟨h1, _⟩ | ⟨j, h1, h2, h3, h4⟩
  · rw [h1] at hf; omega
  · have hij : j = i := by rw [h1] at hf; omega
    subst hij
    have hlen : j < s.perChannelResults.length := by rw [hwf.1]; exact lt_of_lt_of_le h2 hwf.2
    rw [handle_found b s channel vRef handler j hf]
    have hs := slotAt_encodeChannelAt_self s j channel vRef true hlen
    have hlen2 : j < (encodeChannelAt s j channel vRef true).perChannelResults.length := by
      rw [length_encodeChannelAt]; exact hlen
    have hs2 := slotAt_setSlotAt_self (encodeChannelAt s j channel vRef true) j
      { slotAt (encodeChannelAt s j channel vRef true) j with payload := handler } hlen2
    have hs3 : slotAt (setSlotAt (encodeChannelAt s j channel vRef true) j
        { slotAt (encodeChannelAt s j channel vRef true) j with payload := handler }) j
        = { ({ type_vRef_channel := 0, payload := handler } : ChannelResult) with
            type_vRef_channel := encodeByte channel vRef true } := by
      rw [hs2, hs]
    have hne : ∀ k, k ≠ j → slotAt (setSlotAt (encodeChannelAt s j channel vRef true) j
        { slotAt (encodeChannelAt s j channel vRef true) j with payload := handler }) k
        = slotAt s k := by
      intro k hk
      rw [slotAt_setSlotAt_ne _ _ _ _ (Ne.symm hk)]
      exact slotAt_encodeChannelAt_ne s j k channel vRef true (Ne.symm hk)
    have hdec : decodeChannelAt (setSlotAt (encodeChannelAt s j channel vRef true) j
        { slotAt (encodeChannelAt s j channel vRef true) j with payload := handler }) j
        = decodeChannelAt s j := by
      rw [decodeChannelAt_of_byte _ _ _ _ _ _ hs3, h3, and_15_eq_mod]
      have := decodeChannelAt_lt s j
      rw [h3] at this
      exact Nat.mod_eq_of_lt this
    refine ⟨rfl, rfl, rfl, hne, hdec, decodeVRefAt_of_byte _ _ _ _ _ _ hs3,
      isCallbackChannelAt_of_byte _ _ _ _ _ _ hs3, ?_, ?_⟩
    · show (slotAt _ j).handler = handler
      rw [hs3]; rfl
    · rw [← h1]
      refine findChannel_congr s _ channel rfl ?_
      intro k _
      by_cases hkj : k = j
      · rw [hkj]; exact hdec
      · exact (decoders_of_byte_eq s _ k k (by rw [hne k hkj])).1

/-- After a successful `reference` of a channel in [0,15] the channel is found, provided
the capacity fits the 8-bit counter. -/
theorem findChannel_after_reference (b : Build) (s : FastADC) (channel vRef : Nat)
    (hwf : WF b s) (hc : channel ≤ 15) (hN : b.N ≤ 255)
    (hok : (reference b s channel vRef).1 = true) :
    ∃ i : Nat, findChannel (reference b s channel vRef).2 channel = (i : Int) ∧
      isCallbackChannelAt (reference b s channel vRef).2 i = false := by
  rcases findChannel_spec s channel with ⟨h1, h2⟩ | ⟨j, h1, _⟩
  · by_cases hn : s.numActiveChannels < b.N
    · have h3 := reference_appends b s channel vRef hwf h1 hn (by omega)
      refine ⟨s.numActiveChannels, ?_, h3.2.2.2.2.1⟩
      apply findChannel_eq_of_first
      · rw [h3.2.1]; exact Nat.lt_succ_self _
      · rw [h3.2.2.1, and_15_eq_mod]; exact Nat.mod_eq_of_lt (by omega)
      · intro k hk
        rw [(decoders_of_byte_eq s _ k k (by rw [h3.2.2.2.2.2 k (Nat.ne_of_lt hk)])).1]
        exact h2 k hk
    · rw [reference_full b s channel vRef h1 hn] at hok
      exact absurd hok Bool.false_ne_true
  · have hA := reference_in_place b s channel vRef j hwf h1
    exact ⟨j, hA.2.2.2.2.2.2.2, hA.2.2.2.2.2.2.1⟩

theorem read_of_callback (s : FastADC) (channel i : Nat)
    (hf : findChannel s channel = (i : Int)) (hcb : isCallbackChannelAt s i = true) :
    read s channel = -1 := by
  simp [read, hf, hcb]

/-- C5, as amended: for every capacity `N <= 255`, channel `c` in [0,15], selectors `r1`,
`r2` and handler `h`, from any well-formed state where `reference(c, r1)` succeeds, the
channel is then found at a polling slot `i`, and the following `handle(c, r2, h)` returns
true, keeps `c` at slot `i` and `numActiveChannels` unchanged, leaves the slot in callback
mode with stored handler `h` and selector `r2 & 0x03`, and `read(c)` then returns `-1`. -/
theorem C5_mode_switch (b : Build) (s : FastADC) (c r1 r2 : Nat) (h : HANDLER)
    (hwf : WF b s) (hc : c ≤ 15) (hN : b.N ≤ 255)
    (hok : (reference b s c r1).1 = true) :
    ∃ i : Nat, findChannel (reference b s c r1).2 c = (i : Int) ∧
      isCallbackChannelAt (reference b s c r1).2 i = false ∧
      (handle b (reference b s c r1).2 c r2 h).1 = true ∧
      findChannel (handle b (reference b s c r1).2 c r2 h).2 c = (i : Int) ∧
      (handle b (reference b s c r1).2 c r2 h).2.numActiveChannels
        = (reference b s c r1).2.numActiveChannels ∧
      isCallbackChannelAt (handle b (reference b s c r1).2 c r2 h).2 i = true ∧
      (slotAt (handle b (reference b s c r1).2 c r2 h).2 i).handler = h ∧
      decodeVRefAt (handle b (reference b s c r1).2 c r2 h).2 i = r2 &&& 0x03 ∧
      read (handle b (reference b s c r1).2 c r2 h).2 c = -1 := by
  obtain ⟨i, hi, hpoll⟩ := findChannel_after_reference b s c r1 hwf hc hN hok
  have hH := handle_in_place b (reference b s c r1).2 c r2 i h
    (WF_reference b s c r1 hwf) hi
  exact ⟨i, hi, hpoll, hH.1, hH.2.2.2.2.2.2.2.2, hH.2.1, hH.2.2.2.2.2.2.1,
    hH.2.2.2.2.2.2.2.1, hH.2.2.2.2.2.1,
    read_of_callback _ c i hH.2.2.2.2.2.2.2.2 hH.2.2.2.2.2.2.1⟩

/-- C5 on the table of capacity 2 holding channel 3: after `reference(3, 2)` the call
`handle(3, 1, 77)` succeeds and `read(3)` gives `-1`. -/
theorem C5_mode_switch_witness :
    WF demoBuild demoTable ∧ (reference demoBuild demoTable 3 2).1 = true ∧
    ∃ i : Nat, findChannel (reference demoBuild demoTable 3 2).2 3 = (i : Int) ∧
      isCallbackChannelAt (reference demoBuild demoTable 3 2).2 i = false ∧
      (handle demoBuild (reference demoBuild demoTable 3 2).2 3 1 77).1 = true ∧
      findChannel (handle demoBuild (reference demoBuild demoTable 3 2).2 3 1 77).2 3
        = (i : Int) ∧
      (handle demoBuild (reference demoBuild demoTable 3 2).2 3 1 77).2.numActiveChannels
        = (reference demoBuild demoTable 3 2).2.numActiveChannels ∧
      isCallbackChannelAt (handle demoBuild (reference demoBuild demoTable 3 2).2 3 1 77).2 i
        = true ∧
      (slotAt (handle demoBuild (reference demoBuild demoTable 3 2).2 3 1 77).2 i).handler
        = 77 ∧
      decodeVRefAt (handle demoBuild (reference demoBuild demoTable 3 2).2 3 1 77).2 i
        = 1 &&& 0x03 ∧
      read (handle demoBuild (reference demoBuild demoTable 3 2).2 3 1 77).2 3 = -1 :=
  ⟨by decide, by decide,
   C5_mode_switch demoBuild demoTable 3 2 1 77 (by decide) (by decide) (by decide)
     (by decide)⟩

/-- C5 as stated fails for capacity 256: from the 255 occupied slots left by 255 calls
`reference(16, 0)`, `reference(1, 0)` succeeds
while the 8-bit counter wraps to 0, so channel 1 is not found afterwards and the following
`handle(1, 0, 77)` appends a slot, changing `numActiveChannels` from 0 to 1. -/
theorem C5_mode_switch_counterexample :
    registerAll wrapBuild (fresh wrapBuild) (List.replicate 255 (.reference 16 0))
      = wrapTable ∧
    1 ≤ wrapBuild.N ∧ WF wrapBuild wrapTable ∧
    (reference wrapBuild wrapTable 1 0).1 = true ∧
    (reference wrapBuild wrapTable 1 0).2.numActiveChannels = 0 ∧
    findChannel (reference wrapBuild wrapTable 1 0).2 1 = -1 ∧
    (handle wrapBuild (reference wrapBuild wrapTable 1 0).2 1 0 77).1 = true ∧
    (handle wrapBuild (reference wrapBuild wrapTable 1 0).2 1 0 77).2.numActiveChannels = 1 ∧
    (handle wrapBuild (reference wrapBuild wrapTable 1 0).2 1 0 77).2.numActiveChannels
      ≠ (reference wrapBuild wrapTable 1 0).2.numActiveChannels := by
  have hnf := findChannel_wrapTable 1 (by decide)
  have hk : wrapTable.numActiveChannels < wrapBuild.N := by decide
  have hwf : WF wrapBuild wrapTable := ⟨List.length_replicate 256 _, by decide⟩
  have e := reference_room wrapBuild wrapTable 1 0 hnf hk
  have h0 : (reference wrapBuild wrapTable 1 0).2.numActiveChannels = 0 := by
    rw [e]; rfl
  have hnf2 : findChannel (reference wrapBuild wrapTable 1 0).2 1 = -1 := by
    unfold findChannel
    rw [h0]
    rfl
  have hk2 : (reference wrapBuild wrapTable 1 0).2.numActiveChannels < wrapBuild.N := by
    rw [h0]; decide
  have e2 := handle_room wrapBuild (reference wrapBuild wrapTable 1 0).2 1 0 77 hnf2 hk2
  have h1 : (handle wrapBuild (reference wrapBuild wrapTable 1 0).2 1 0 77).2.numActiveChannels
      = 1 := by
    rw [e2, numActiveChannels_setSlotAt, numActiveChannels_appended, h0]
  refine ⟨wrapTable_reached, by decide, hwf, ?_, h0, hnf2, ?_, h1, ?_⟩
  · rw [e]
  · rw [e2]
  · rw [h1, h0]; decide


/-! ## Reading a cached result -/

theorem toInt16_of_lt (v : Nat) (h : v < 32768) : toInt16 v = (v : Int) := by
  have hm : v % 65536 = v := Nat.mod_eq_of_lt (by omega)
  simp [toInt16, hm, h]

theorem toInt16_eq_neg_one_iff (v : Nat) (h : v < 65536) : toInt16 v = -1 ↔ v = 65535 := by
  have hm : v % 65536 = v := Nat.mod_eq_of_lt h
  unfold toInt16
  rw [hm]
  split <;> omega

theorem result_lt (c : ChannelResult) : c.result < 65536 :=
  Nat.mod_lt _ (by decide)

theorem read_of_not_found (s : FastADC) (channel : Nat) (hf : findChannel s channel = -1) :
    read s channel = -1 := by
  simp [read, hf]

theorem read_of_polling (s : FastADC) (channel i : Nat)
    (hf : findChannel s channel = (i : Int)) (hcb : isCallbackChannelAt s i = false) :
    read s channel = toInt16 (slotAt s i).result := by
  simp [read, hf, hcb]

/-- C6, as amended: `read(c)` returns `-1` when no occupied slot has identity `c` or when
the slot found for `c` is in callback mode; when that slot is in polling mode it returns the
cached 16-bit result converted to the 16-bit `int` of the target, which is the cached
result itself, and different from `-1`, whenever the result is below `0x8000`, and is `-1`
only for the cached result `0xFFFF`. So `read(c) = -1` holds exactly when `c` is not found,
or its slot is in callback mode, or its slot caches `0xFFFF`. `read` is a function of the
instance and returns no new instance: it changes nothing. -/
theorem C6_read_contract (s : FastADC) (c : Nat) :
    ((∀ k, k < s.numActiveChannels → decodeChannelAt s k ≠ c) → read s c = -1) ∧
    (∀ i : Nat, findChannel s c = (i : Int) → isCallbackChannelAt s i = true →
      read s c = -1) ∧
    (∀ i : Nat, findChannel s c = (i : Int) → isCallbackChannelAt s i = false →
      read s c = toInt16 (slotAt s i).result ∧
      ((slotAt s i).result < 32768 →
        read s c = ((slotAt s i).result : Int) ∧ read s c ≠ -1) ∧
      (read s c = -1 ↔ (slotAt s i).result = 65535)) ∧
    (read s c = -1 ↔
      ((∀ k, k < s.numActiveChannels → decodeChannelAt s k ≠ c) ∨
        ∃ i : Nat, findChannel s c = (i : Int) ∧
          (isCallbackChannelAt s i = true ∨ (slotAt s i).result = 65535))) := by
  have hpoll : ∀ i : Nat, findChannel s c = (i : Int) → isCallbackChannelAt s i = false →
      read s c = toInt16 (slotAt s i).result ∧
      ((slotAt s i).result < 32768 →
        read s c = ((slotAt s i).result : Int) ∧ read s c ≠ -1) ∧
      (read s c = -1 ↔ (slotAt s i).result = 65535) := by
    intro i hf hcb
    have hr := read_of_polling s c i hf hcb
    refine ⟨hr, ?_, ?_⟩
    · intro hlt
      rw [hr, toInt16_of_lt _ hlt]
      exact ⟨rfl, by omega⟩
    · rw [hr]
      exact toInt16_eq_neg_one_iff _ (result_lt _)
  refine ⟨?_, ?_, hpoll, ?_⟩
  · intro h
    exact read_of_not_found s c ((findChannel_not_found_iff s c).2 h)
  · intro i hf hcb
    exact read_of_callback s c i hf hcb
  · rcases findChannel_spec s c with ⟨h1, h2⟩ | ⟨j, h1, h2, h3, _⟩
    · constructor
      · intro _; exact Or.inl h2
      · intro _; exact read_of_not_found s c h1
    · cases hcb : isCallbackChannelAt s j with
      | true =>
        constructor
        · intro _; exact Or.inr ⟨j, h1, Or.inl hcb⟩
        · intro _; exact read_of_callback s c j h1 hcb
      | false =>
        have hp := (hpoll j h1 hcb).2.2
        constructor
        · intro h; exact Or.inr ⟨j, h1, Or.inr (hp.1 h)⟩
        · intro h
          rcases h with h | ⟨i, hi, hor⟩
          · exact absurd h3 (h j h2)
          · have hij : i = j := by rw [h1] at hi; omega
            subst hij
            rcases hor with h | h
            · rw [hcb] at h; exact absurd h Bool.false_ne_true
            · exact hp.2 h

/-- C6 on the table of capacity 2 holding channel 3 in polling mode with cached result 0:
`read(3)` is 0 and `read(5)` is `-1`. -/
theorem C6_read_contract_witness :
    findChannel demoTable 3 = ((0 : Nat) : Int) ∧ isCallbackChannelAt demoTable 0 = false ∧
    (slotAt demoTable 0).result < 32768 ∧
    (read demoTable 3 = ((slotAt demoTable 0).result : Int) ∧ read demoTable 3 ≠ -1) ∧
    read demoTable 5 = -1 :=
  ⟨by decide, by decide, by decide,
   ((C6_read_contract demoTable 3).2.2.1 0 (by decide) (by decide)).2.1 (by decide),
   (C6_read_contract demoTable 5).1 (by decide)⟩

/-- C6 as stated fails when a polling slot caches `0xFFFF`: the table is reached from the
fresh instance of capacity 1 by `reference(0, 0)` and one run of the interrupt handler body
with `ADC = 0xFFFF`; channel 0 is found at slot 0 in polling mode, yet `read(0)` is `-1`,
the value also returned for an unregistered channel. -/
theorem C6_read_contract_counterexample :
    (handleResultThenNextChannel (reference soloBuild (fresh soloBuild) 0 0).2 65535 0).state
      = saturatedTable ∧
    findChannel saturatedTable 0 = ((0 : Nat) : Int) ∧
    decodeChannelAt saturatedTable 0 = 0 ∧
    isCallbackChannelAt saturatedTable 0 = false ∧
    (slotAt saturatedTable 0).result = 65535 ∧
    read saturatedTable 0 = -1 := by
  decide


/-! ## The interrupt handler body: what it leaves alone -/

theorem byte_setSlotAt_payload (s : FastADC) (i k p : Nat) :
    (slotAt (setSlotAt s i { slotAt s i with payload := p }) k).type_vRef_channel
      = (slotAt s k).type_vRef_channel := by
  by_cases hik : i = k
  · subst hik
    by_cases hlen : i < s.perChannelResults.length
    · rw [slotAt_setSlotAt_self s i _ hlen]
    · have hnone : s.perChannelResults[i]? = none :=
        List.getElem?_eq_none (Nat.le_of_not_lt hlen)
      simp [slotAt, setSlotAt, List.getD_eq_getElem?_getD, List.getElem?_set, hlen, hnone]
  · rw [slotAt_setSlotAt_ne s i k _ hik]

theorem findChannel_debug (s : FastADC) (d channel : Nat) :
    findChannel { s with debug := d } channel = findChannel s channel :=
  findChannel_congr s _ channel rfl (fun _ _ => rfl)

/-- One run of the interrupt handler body keeps the count, the period, the number of slots
and every metadata byte, and adds one to `debug` modulo `2^32`. -/
theorem fire_frame (s : FastADC) (ADC ADMUX : Nat) :
    (handleResultThenNextChannel s ADC ADMUX).state.numActiveChannels
      = s.numActiveChannels ∧
    (handleResultThenNextChannel s ADC ADMUX).state.channelSamplePeriodMicros
      = s.channelSamplePeriodMicros ∧
    (handleResultThenNextChannel s ADC ADMUX).state.debug = (s.debug + 1) % 4294967296 ∧
    (handleResultThenNextChannel s ADC ADMUX).state.perChannelResults.length
      = s.perChannelResults.length ∧
    ∀ k, (slotAt (handleResultThenNextChannel s ADC ADMUX).state k).type_vRef_channel
      = (slotAt s k).type_vRef_channel := by
  unfold handleResultThenNextChannel
  simp only
  split
  · split
    · exact ⟨rfl, rfl, rfl, rfl, fun _ => rfl⟩
    · exact ⟨rfl, rfl, rfl, length_setSlotAt _ _ _,
        fun k => byte_setSlotAt_payload _ _ k _⟩
  · exact ⟨rfl, rfl, rfl, rfl, fun _ => rfl⟩


/-! ## No duplicate identities -/

theorem decodeChannelAt_of_byte_eq (s t : FastADC) (k : Nat)
    (h : (slotAt t k).type_vRef_channel = (slotAt s k).type_vRef_channel) :
    decodeChannelAt t k = decodeChannelAt s k :=
  (decoders_of_byte_eq s t k k h).1

theorem distinctIdentities_of_bytes (s t : FastADC)
    (hn : t.numActiveChannels = s.numActiveChannels)
    (hb : ∀ k, k < s.numActiveChannels →
      (slotAt t k).type_vRef_channel = (slotAt s k).type_vRef_channel)
    (hd : distinctIdentities s) : distinctIdentities t := by
  intro i j hij hj
  rw [hn] at hj
  rw [decodeChannelAt_of_byte_eq s t i (hb i (by omega)),
    decodeChannelAt_of_byte_eq s t j (hb j hj)]
  exact hd i j hij hj

theorem distinctIdentities_appended (b : Build) (s : FastADC) (channel vRef : Nat)
    (flag : Bool) (hwf : WF b s) (hn : s.numActiveChannels < b.N) (hc : channel ≤ 15)
    (hnf : findChannel s channel = -1) (hd : distinctIdentities s) :
    distinctIdentities (appended b s channel vRef flag) := by
  have hlen : s.numActiveChannels < s.perChannelResults.length := by rw [hwf.1]; exact hn
  have hself := slotAt_appended_self b s channel vRef flag hlen
  have hnew : decodeChannelAt (appended b s channel vRef flag) s.numActiveChannels
      = channel := by
    rw [decodeChannelAt_of_byte _ _ _ _ _ _ hself, and_15_eq_mod]
    exact Nat.mod_eq_of_lt (by omega)
  have hold : ∀ k, k ≠ s.numActiveChannels →
      decodeChannelAt (appended b s channel vRef flag) k = decodeChannelAt s k := by
    intro k hk
    exact decodeChannelAt_of_byte_eq s _ k
      (by rw [slotAt_appended_ne b s channel vRef k flag (Ne.symm hk)])
  have hmiss := (findChannel_not_found_iff s channel).1 hnf
  have hle : (s.numActiveChannels + 1) % 256 ≤ s.numActiveChannels + 1 := Nat.mod_le _ _
  intro i j hij hj
  rw [numActiveChannels_appended] at hj
  by_cases hjn : j = s.numActiveChannels
  · rw [hjn, hnew, hold i (by omega)]
    exact hmiss i (by omega)
  · rw [hold i (by omega), hold j hjn]
    exact hd i j hij (by omega)

theorem distinctIdentities_reference (b : Build) (s : FastADC) (channel vRef : Nat)
    (hwf : WF b s) (hc : channel ≤ 15) (hd : distinctIdentities s) :
    distinctIdentities (reference b s channel vRef).2 := by
  rcases reference_cases b s channel vRef with ⟨j, hj, _, _, _⟩ | ⟨h1, hn, e⟩ | ⟨_, _, e⟩
  · have hA := reference_in_place b s channel vRef j hwf hj
    intro i k hik hk
    rw [hA.2.1] at hk
    have hdec : ∀ m, decodeChannelAt (reference b s channel vRef).2 m = decodeChannelAt s m := by
      intro m
      by_cases hm : m = j
      · rw [hm]; exact hA.2.2.2.2.1
      · exact decodeChannelAt_of_byte_eq s _ m (by rw [hA.2.2.2.1 m hm])
    rw [hdec i, hdec k]
    exact hd i k hik hk
  · rw [e]; exact distinctIdentities_appended b s channel vRef false hwf hn hc h1 hd
  · rw [e]; exact hd

theorem distinctIdentities_handle (b : Build) (s : FastADC) (channel vRef : Nat)
    (handler : HANDLER) (hwf : WF b s) (hc : channel ≤ 15) (hd : distinctIdentities s) :
    distinctIdentities (handle b s channel vRef handler).2 := by
  rcases handle_cases b s channel vRef handler with ⟨j, hj, _, _, _⟩ | ⟨h1, hn, e⟩ | ⟨_, _, e⟩
  · have hA := handle_in_place b s channel vRef j handler hwf hj
    intro i k hik hk
    rw [hA.2.1] at hk
    have hdec : ∀ m, decodeChannelAt (handle b s channel vRef handler).2 m
        = decodeChannelAt s m := by
      intro m
      by_cases hm : m = j
      · rw [hm]; exact hA.2.2.2.2.1
      · exact decodeChannelAt_of_byte_eq s _ m (by rw [hA.2.2.2.1 m hm])
    rw [hdec i, hdec k]
    exact hd i k hik hk
  · rw [e]
    refine distinctIdentities_of_bytes (appended b s channel vRef true) _ rfl ?_
      (distinctIdentities_appended b s channel vRef true hwf hn hc h1 hd)
    intro k _
    exact byte_setSlotAt_payload _ _ k _
  · rw [e]; exact hd

theorem WF_fire (b : Build) (s : FastADC) (ADC ADMUX : Nat) (h : WF b s) :
    WF b (handleResultThenNextChannel s ADC ADMUX).state := by
  have hf := fire_frame s ADC ADMUX
  exact ⟨by rw [hf.2.2.2.1]; exact h.1, by rw [hf.1]; exact h.2⟩

theorem distinctIdentities_fire (s : FastADC) (ADC ADMUX : Nat) (hd : distinctIdentities s) :
    distinctIdentities (handleResultThenNextChannel s ADC ADMUX).state := by
  have hf := fire_frame s ADC ADMUX
  exact distinctIdentities_of_bytes s _ hf.1 (fun k _ => hf.2.2.2.2 k) hd

theorem invariant_apply (b : Build) (s : FastADC) (e : Event) (hr : e.channelInRange)
    (h : WF b s ∧ distinctIdentities s) :
    WF b (e.apply b s) ∧ distinctIdentities (e.apply b s) := by
  cases e with
  | register r =>
    cases r with
    | reference channel vRef =>
      exact ⟨WF_reference b s channel vRef h.1,
        distinctIdentities_reference b s channel vRef h.1 hr h.2⟩
    | handle channel vRef handler =>
      exact ⟨WF_handle b s channel vRef handler h.1,
        distinctIdentities_handle b s channel vRef handler h.1 hr h.2⟩
  | fire ADC ADMUX =>
    exact ⟨WF_fire b s ADC ADMUX h.1, distinctIdentities_fire s ADC ADMUX h.2⟩

theorem invariant_runEvents (b : Build) (events : List Event) :
    ∀ s : FastADC, (∀ e ∈ events, e.channelInRange) → WF b s ∧ distinctIdentities s →
      WF b (runEvents b s events) ∧ distinctIdentities (runEvents b s events) := by
  induction events with
  | nil => intro s _ h; exact h
  | cons e rest ih =>
    intro s hr h
    exact ih (e.apply b s) (fun x hx => hr x (List.mem_cons_of_mem e hx))
      (invariant_apply b s e (hr e (List.mem_cons_self e rest)) h)

/-- C7: in every state reached from the fresh instance by `reference` and `handle` calls
whose channel arguments lie in [0,15], interleaved with runs of the interrupt handler body
under any register contents, the decoded identities of slots `0..numActiveChannels-1` are
pairwise distinct. -/
theorem C7_no_duplicate_identities (b : Build) (events : List Event)
    (hr : ∀ e ∈ events, e.channelInRange) (i j : Nat) (hij : i < j)
    (hj : j < (runEvents b (fresh b) events).numActiveChannels) :
    decodeChannelAt (runEvents b (fresh b) events) i
      ≠ decodeChannelAt (runEvents b (fresh b) events) j :=
  (invariant_runEvents b events (fresh b) hr
    ⟨WF_fresh b, fun _ _ _ h => absurd h (Nat.not_lt_zero _)⟩).2 i j hij hj


/-- C7 on three events of a capacity-2 build: channels 3 and 5 are registered, the handler
body runs once, and slots 0 and 1 decode to different identities. -/
theorem C7_no_duplicate_identities_witness :
    (runEvents demoBuild (fresh demoBuild) demoEvents).numActiveChannels = 2 ∧
    decodeChannelAt (runEvents demoBuild (fresh demoBuild) demoEvents) 0
      ≠ decodeChannelAt (runEvents demoBuild (fresh demoBuild) demoEvents) 1 :=
  ⟨by decide,
   C7_no_duplicate_identities demoBuild demoEvents
     (by intro e he
         simp only [demoEvents, List.mem_cons, List.mem_singleton, List.not_mem_nil,
           or_false] at he
         rcases he with h | h | h <;> rw [h] <;>
           simp [Event.channelInRange, Registration.channel])
     0 1 (by decide) (by decide)⟩

/-! ## The interrupt handler body: what it programs -/

theorem admux_value (v c : Nat) (hv : v < 4) (hc : c < 16) :
    ((v <<< 6) ||| (c &&& 0x0f)) % 256 = 64 * v + c := by
  have hc2 : c &&& 0x0f = c := by rw [and_15_eq_mod]; exact Nat.mod_eq_of_lt hc
  have hlt : c < 2 ^ 6 := by
    have : (2 : Nat) ^ 6 = 64 := by decide
    omega
  have hor : 2 ^ 6 * v ||| c = 2 ^ 6 * v + c := (Nat.mul_add_lt_is_or hlt v).symm
  have h64 : (2 : Nat) ^ 6 = 64 := by decide
  rw [hc2, Nat.shiftLeft_eq, Nat.mul_comm, hor, h64]
  omega

theorem findNextChannel_of_found (s : FastADC) (i : Nat) (hk : 1 ≤ s.numActiveChannels) :
    findNextChannel s (i : Int) = (((i + 1) % s.numActiveChannels : Nat) : Int) := by
  have h0 : s.numActiveChannels ≠ 0 := by omega
  simp only [findNextChannel, h0, if_false]
  rw [Int.ofNat_tmod]
  rfl

theorem findNextChannel_of_not_found (s : FastADC) (hk : 1 ≤ s.numActiveChannels) :
    findNextChannel s (-1) = ((0 : Nat) : Int) := by
  have h0 : s.numActiveChannels ≠ 0 := by omega
  simp [findNextChannel, h0]

/-- The register value written by one run of the handler body, in terms of the instance
before the run. -/
theorem fire_ADMUX (s : FastADC) (ADC ADMUX : Nat) :
    (handleResultThenNextChannel s ADC ADMUX).ADMUX =
      if 0 ≤ findNextChannel s (findChannel s ((ADMUX % 256) &&& 0x0f)) then
        ((decodeVRefAt s (findNextChannel s (findChannel s ((ADMUX % 256) &&& 0x0f))).toNat
            <<< 6) |||
          (decodeChannelAt s
            (findNextChannel s (findChannel s ((ADMUX % 256) &&& 0x0f))).toNat &&& 0x0f))
          % 256
      else ADMUX := by
  have hdec : ∀ (i p j : Nat),
      decodeChannelAt (setSlotAt { s with debug := (s.debug + 1) % 4294967296 } i
        { slotAt { s with debug := (s.debug + 1) % 4294967296 } i with payload := p }) j
        = decodeChannelAt s j ∧
      decodeVRefAt (setSlotAt { s with debug := (s.debug + 1) % 4294967296 } i
        { slotAt { s with debug := (s.debug + 1) % 4294967296 } i with payload := p }) j
        = decodeVRefAt s j := by
    intro i p j
    have hb := byte_setSlotAt_payload { s with debug := (s.debug + 1) % 4294967296 } i j p
    have hd := decoders_of_byte_eq { s with debug := (s.debug + 1) % 4294967296 } _ j j hb
    exact ⟨hd.1, hd.2.1⟩
  unfold handleResultThenNextChannel
  simp only [findChannel_debug]
  split
  · split
    · rfl
    · simp only [findNextChannel, numActiveChannels_setSlotAt, (hdec _ _ _).1, (hdec _ _ _).2]
  · rfl


/-! ## Round robin -/

theorem low_bits_of_admux (v c : Nat) (hc : c < 16) :
    ((64 * v + c) % 256) &&& 0x0f = c ∧ (64 * v + c) &&& 0x0f = c := by
  rw [and_15_eq_mod, and_15_eq_mod]
  omega

theorem fire_ADMUX_of_found (s : FastADC) (ADC ADMUX i : Nat) (hk : 1 ≤ s.numActiveChannels)
    (hf : findChannel s ((ADMUX % 256) &&& 0x0f) = (i : Int)) :
    (handleResultThenNextChannel s ADC ADMUX).ADMUX
      = 64 * decodeVRefAt s ((i + 1) % s.numActiveChannels)
        + decodeChannelAt s ((i + 1) % s.numActiveChannels) := by
  rw [fire_ADMUX, hf, findNextChannel_of_found s i hk]
  have h0 : (0 : Int) ≤ (((i + 1) % s.numActiveChannels : Nat) : Int) := Int.ofNat_nonneg _
  rw [if_pos h0, Int.toNat_ofNat]
  exact admux_value _ _ (decodeVRefAt_lt s _) (decodeChannelAt_lt s _)

theorem fire_ADMUX_of_not_found (s : FastADC) (ADC ADMUX : Nat)
    (hk : 1 ≤ s.numActiveChannels)
    (hf : findChannel s ((ADMUX % 256) &&& 0x0f) = -1) :
    (handleResultThenNextChannel s ADC ADMUX).ADMUX
      = 64 * decodeVRefAt s 0 + decodeChannelAt s 0 := by
  rw [fire_ADMUX, hf, findNextChannel_of_not_found s hk]
  have h0 : (0 : Int) ≤ ((0 : Nat) : Int) := Int.ofNat_nonneg _
  rw [if_pos h0, Int.toNat_ofNat]
  exact admux_value _ _ (decodeVRefAt_lt s _) (decodeChannelAt_lt s _)

theorem distinctIdentities_ne (s : FastADC) (hd : distinctIdentities s) (i j : Nat)
    (hi : i < s.numActiveChannels) (hj : j < s.numActiveChannels) (hij : i ≠ j) :
    decodeChannelAt s i ≠ decodeChannelAt s j := by
  rcases Nat.lt_or_gt_of_ne hij with h | h
  · exact hd i j h hj
  · exact Ne.symm (hd j i h hi)

theorem findChannel_of_distinct (s : FastADC) (hd : distinctIdentities s) (i : Nat)
    (hi : i < s.numActiveChannels) :
    findChannel s (decodeChannelAt s i) = (i : Int) :=
  findChannel_eq_of_first s _ i hi rfl
    (fun k hk => distinctIdentities_ne s hd k i (by omega) hi (Nat.ne_of_lt hk))

/-- Consecutive runs of the handler body on a table with distinct identities: run number
`m` (from 0) programs the identity of slot `(i + 1 + m) % k`, where `i` is the slot of the
identity in `ADMUX` at the start. The table `t` may differ from `s` in payloads and
`debug` only. -/
theorem programmed_spec (s : FastADC) (hk : 1 ≤ s.numActiveChannels)
    (hd : distinctIdentities s) (adcs : List Nat) :
    ∀ (t : FastADC) (ADMUX i : Nat), t.numActiveChannels = s.numActiveChannels →
      (∀ k, (slotAt t k).type_vRef_channel = (slotAt s k).type_vRef_channel) →
      i < s.numActiveChannels → (ADMUX % 256) &&& 0x0f = decodeChannelAt s i →
      ∀ m, m < adcs.length →
        (programmed t ADMUX adcs).getD m 0 &&& 0x0f
          = decodeChannelAt s ((i + 1 + m) % s.numActiveChannels) := by
  induction adcs with
  | nil => intro t ADMUX i _ _ _ _ m hm; exact absurd hm (Nat.not_lt_zero m)
  | cons a rest ih =>
    intro t ADMUX i hn hb hi hA m hm
    have hdt : distinctIdentities t := distinctIdentities_of_bytes s t hn (fun k _ => hb k) hd
    have hdec : ∀ k, decodeChannelAt t k = decodeChannelAt s k :=
      fun k => decodeChannelAt_of_byte_eq s t k (hb k)
    have hft : findChannel t ((ADMUX % 256) &&& 0x0f) = (i : Int) := by
      rw [hA, ← hdec i]
      exact findChannel_of_distinct t hdt i (by rw [hn]; exact hi)
    have hw := fire_ADMUX_of_found t a ADMUX i (by rw [hn]; exact hk) hft
    rw [hn, hdec] at hw
    have hj : (i + 1) % s.numActiveChannels < s.numActiveChannels := Nat.mod_lt _ (by omega)
    have hlow := low_bits_of_admux (decodeVRefAt t ((i + 1) % s.numActiveChannels))
      (decodeChannelAt s ((i + 1) % s.numActiveChannels)) (decodeChannelAt_lt s _)
    have hfr := fire_frame t a ADMUX
    cases m with
    | zero =>
      show (handleResultThenNextChannel t a ADMUX).ADMUX &&& 0x0f = _
      rw [hw, Nat.add_zero]
      exact hlow.2
    | succ m =>
      show (programmed (handleResultThenNextChannel t a ADMUX).state
        (handleResultThenNextChannel t a ADMUX).ADMUX rest).getD m 0 &&& 0x0f = _
      have hm2 : m < rest.length := by
        simp only [List.length_cons] at hm; omega
      rw [ih (handleResultThenNextChannel t a ADMUX).state
        (handleResultThenNextChannel t a ADMUX).ADMUX ((i + 1) % s.numActiveChannels)
        (by rw [hfr.1, hn]) (fun k => by rw [hfr.2.2.2.2 k, hb k]) hj
        (by rw [hw]; exact hlow.1) m hm2]
      congr 1
      rw [Nat.add_assoc ((i + 1) % s.numActiveChannels), Nat.mod_add_mod]
      congr 1
      omega

theorem shifted_index_injective (a k m1 m2 : Nat) (h1 : m1 < k) (h2 : m2 < k)
    (h : (a + m1) % k = (a + m2) % k) : m1 = m2 :=
  Nat.ModEq.eq_of_lt_of_lt (Nat.ModEq.add_left_cancel' a h) h1 h2

theorem shifted_index_surjective (a k t : Nat) (ht : t < k) :
    ∃ m, m < k ∧ (a + m) % k = t := by
  have hr : a % k < k := Nat.mod_lt _ (by omega)
  refine ⟨(t + (k - a % k)) % k, Nat.mod_lt _ (by omega), ?_⟩
  rw [Nat.add_mod_mod, Nat.add_mod, Nat.add_mod_mod]
  have h2 : a % k + (t + (k - a % k)) = t + k := by omega
  rw [h2, Nat.add_mod_right]
  exact Nat.mod_eq_of_lt ht


/-- C8: on a table with `k >= 1` active channels holding pairwise distinct identities, and
a starting `ADMUX` whose low 4 bits are the identity of slot `i0`, consecutive runs of the
handler body (each reading the `ADMUX` written by the previous one, no registration in
between) program the identities in slot order modulo `k`: run `m` (counted from 0)
programs the identity of slot `(i0 + 1 + m) % k`. Hence the first `k` runs program
pairwise different identities, every registered identity is programmed by one of them, and
run `k + 1` programs the same identity as the first run. -/
theorem C8_round_robin (s : FastADC) (ADMUX i0 : Nat) (adcs : List Nat)
    (hk : 1 ≤ s.numActiveChannels) (hd : distinctIdentities s)
    (hi : findChannel s ((ADMUX % 256) &&& 0x0f) = (i0 : Int))
    (hlen : adcs.length = s.numActiveChannels + 1) :
    (∀ m, m ≤ s.numActiveChannels →
      (programmed s ADMUX adcs).getD m 0 &&& 0x0f
        = decodeChannelAt s ((i0 + 1 + m) % s.numActiveChannels)) ∧
    (∀ m1 m2, m1 < m2 → m2 < s.numActiveChannels →
      (programmed s ADMUX adcs).getD m1 0 &&& 0x0f
        ≠ (programmed s ADMUX adcs).getD m2 0 &&& 0x0f) ∧
    (∀ t, t < s.numActiveChannels → ∃ m, m < s.numActiveChannels ∧
      (programmed s ADMUX adcs).getD m 0 &&& 0x0f = decodeChannelAt s t) ∧
    (programmed s ADMUX adcs).getD s.numActiveChannels 0 &&& 0x0f
      = (programmed s ADMUX adcs).getD 0 0 &&& 0x0f := by
  have hi0 : i0 < s.numActiveChannels ∧ decodeChannelAt s i0 = (ADMUX % 256) &&& 0x0f := by
    rcases findChannel_spec s ((ADMUX % 256) &&& 0x0f) with ⟨h1, _⟩ | ⟨j, h1, h2, h3, _⟩
    · rw [h1] at hi; omega
    · have : j = i0 := by rw [h1] at hi; omega
      rw [← this]; exact ⟨h2, h3⟩
  have hspec : ∀ m, m ≤ s.numActiveChannels →
      (programmed s ADMUX adcs).getD m 0 &&& 0x0f
        = decodeChannelAt s ((i0 + 1 + m) % s.numActiveChannels) := by
    intro m hm
    exact programmed_spec s hk hd adcs s ADMUX i0 rfl (fun _ => rfl) hi0.1 hi0.2.symm m
      (by omega)
  have hlt : ∀ m, (i0 + 1 + m) % s.numActiveChannels < s.numActiveChannels :=
    fun m => Nat.mod_lt _ (by omega)
  refine ⟨hspec, ?_, ?_, ?_⟩
  · intro m1 m2 h12 h2
    rw [hspec m1 (by omega), hspec m2 (by omega)]
    apply distinctIdentities_ne s hd _ _ (hlt m1) (hlt m2)
    intro heq
    have := shifted_index_injective (i0 + 1) s.numActiveChannels m1 m2 (by omega) h2 heq
    omega
  · intro t ht
    obtain ⟨m, hm, hmt⟩ := shifted_index_surjective (i0 + 1) s.numActiveChannels t ht
    exact ⟨m, hm, by rw [hspec m (by omega), hmt]⟩
  · rw [hspec s.numActiveChannels (le_refl _), hspec 0 (Nat.zero_le _), Nat.add_mod_right]

theorem distinctIdentities_pairTable : distinctIdentities pairTable := by
  intro i j hij hj
  have hj2 : j < 2 := hj
  have h1 : j = 1 := by omega
  have h0 : i = 0 := by omega
  subst h1; subst h0
  decide

/-- C8 on the table holding channels 3 and 5 with `ADMUX` on channel 3: three runs program
channel 5, channel 3, channel 5. -/
theorem C8_round_robin_witness :
    findChannel pairTable ((3 % 256) &&& 0x0f) = ((0 : Nat) : Int) ∧
    programmed pairTable 3 [512, 900, 600] = [69, 3, 69] ∧
    (programmed pairTable 3 [512, 900, 600]).getD pairTable.numActiveChannels 0 &&& 0x0f
      = (programmed pairTable 3 [512, 900, 600]).getD 0 0 &&& 0x0f :=
  ⟨by decide, by decide,
   (C8_round_robin pairTable 3 0 [512, 900, 600] (by decide) distinctIdentities_pairTable
      (by decide) (by decide)).2.2.2⟩

/-! ## A stale channel -/

theorem fire_of_not_found (s : FastADC) (ADC ADMUX : Nat)
    (hf : findChannel s ((ADMUX % 256) &&& 0x0f) = -1) :
    (handleResultThenNextChannel s ADC ADMUX).state
      = { s with debug := (s.debug + 1) % 4294967296 } ∧
    (handleResultThenNextChannel s ADC ADMUX).calls = [] := by
  unfold handleResultThenNextChannel
  simp [findChannel_debug, hf]

/-- C9: when `numActiveChannels >= 1` and the low 4 bits of `ADMUX` match no occupied slot,
one run of the handler body invokes no handler, leaves every slot, `numActiveChannels` and
`channelSamplePeriodMicros` unchanged, and writes to `ADMUX` an 8-bit value whose low 4 bits
are the identity of slot 0, whose top 2 bits are the selector of slot 0, and whose bits 4
and 5 are clear. -/
theorem C9_stale_channel (s : FastADC) (ADC ADMUX : Nat) (hk : 1 ≤ s.numActiveChannels)
    (hstale : ∀ k, k < s.numActiveChannels →
      decodeChannelAt s k ≠ (ADMUX % 256) &&& 0x0f) :
    (handleResultThenNextChannel s ADC ADMUX).calls = [] ∧
    (handleResultThenNextChannel s ADC ADMUX).state.perChannelResults
      = s.perChannelResults ∧
    (handleResultThenNextChannel s ADC ADMUX).state.numActiveChannels
      = s.numActiveChannels ∧
    (handleResultThenNextChannel s ADC ADMUX).state.channelSamplePeriodMicros
      = s.channelSamplePeriodMicros ∧
    (handleResultThenNextChannel s ADC ADMUX).ADMUX &&& 0x0f = decodeChannelAt s 0 ∧
    (handleResultThenNextChannel s ADC ADMUX).ADMUX >>> 6 = decodeVRefAt s 0 ∧
    (handleResultThenNextChannel s ADC ADMUX).ADMUX
      = 64 * decodeVRefAt s 0 + decodeChannelAt s 0 := by
  have hf := (findChannel_not_found_iff s ((ADMUX % 256) &&& 0x0f)).2 hstale
  have hs := fire_of_not_found s ADC ADMUX hf
  have hw := fire_ADMUX_of_not_found s ADC ADMUX hk hf
  have hc := decodeChannelAt_lt s 0
  have hv := decodeVRefAt_lt s 0
  refine ⟨hs.2, by rw [hs.1], by rw [hs.1], by rw [hs.1], ?_, ?_, hw⟩
  · rw [hw]; exact (low_bits_of_admux _ _ hc).2
  · rw [hw, Nat.shiftRight_eq_div_pow]
    have : (2 : Nat) ^ 6 = 64 := by decide
    rw [this]
    omega

/-- C9 on the table holding channels 3 and 5 with `ADMUX` on channel 9: nothing is called
and `ADMUX` is set to channel 3 with selector 0. -/
theorem C9_stale_channel_witness :
    (handleResultThenNextChannel pairTable 700 9).calls = [] ∧
    (handleResultThenNextChannel pairTable 700 9).state.perChannelResults
      = pairTable.perChannelResults ∧
    (handleResultThenNextChannel pairTable 700 9).ADMUX = 3 :=
  ⟨(C9_stale_channel pairTable 700 9 (by decide)
      (by intro k hk
          have hk2 : k < 2 := hk
          have : k = 0 ∨ k = 1 := by omega
          rcases this with h | h <;> subst h <;> decide)).1,
   (C9_stale_channel pairTable 700 9 (by decide)
      (by intro k hk
          have hk2 : k < 2 := hk
          have : k = 0 ∨ k = 1 := by omega
          rcases this with h | h <;> subst h <;> decide)).2.1,
   by decide⟩


/-! ## Period scaling -/

theorem periodScaled_appended (b : Build) (s : FastADC) (channel vRef : Nat) (flag : Bool) :
    periodScaled b (appended b s channel vRef flag) := rfl

theorem periodScaled_reference (b : Build) (s : FastADC) (channel vRef : Nat)
    (h : periodScaled b s) : periodScaled b (reference b s channel vRef).2 := by
  rcases reference_cases b s channel vRef with ⟨j, _, _, _, e⟩ | ⟨_, _, e⟩ | ⟨_, _, e⟩
  · rw [e]; exact h
  · rw [e]; exact periodScaled_appended b s channel vRef false
  · rw [e]; exact h

theorem periodScaled_handle (b : Build) (s : FastADC) (channel vRef : Nat) (handler : HANDLER)
    (h : periodScaled b s) : periodScaled b (handle b s channel vRef handler).2 := by
  rcases handle_cases b s channel vRef handler with ⟨j, _, _, _, e⟩ | ⟨_, _, e⟩ | ⟨_, _, e⟩
  · rw [e]; exact h
  · rw [e]; exact periodScaled_appended b s channel vRef true
  · rw [e]; exact h

theorem periodScaled_apply (b : Build) (s : FastADC) (r : Registration)
    (h : periodScaled b s) : periodScaled b (r.apply b s) := by
  cases r with
  | reference channel vRef => exact periodScaled_reference b s channel vRef h
  | handle channel vRef handler => exact periodScaled_handle b s channel vRef handler h

theorem periodScaled_registerAll (b : Build) (calls : List Registration) :
    ∀ s : FastADC, periodScaled b s → periodScaled b (registerAll b s calls) := by
  induction calls with
  | nil => intro s h; exact h
  | cons r rest ih => intro s h; exact ih (r.apply b s) (periodScaled_apply b s r h)

theorem WF_apply (b : Build) (s : FastADC) (r : Registration) (h : WF b s) :
    WF b (r.apply b s) := by
  cases r with
  | reference channel vRef => exact WF_reference b s channel vRef h
  | handle channel vRef handler => exact WF_handle b s channel vRef handler h

/-- A registration of a channel that is not found, with a free slot, appends. -/
theorem apply_appends (b : Build) (s : FastADC) (r : Registration)
    (hwf : WF b s) (hnf : findChannel s r.channel = -1)
    (hk : s.numActiveChannels < b.N) (h8 : s.numActiveChannels < 255) :
    (r.apply b s).numActiveChannels = s.numActiveChannels + 1 ∧
    decodeChannelAt (r.apply b s) s.numActiveChannels = r.channel &&& 0x0f ∧
    ∀ j, j ≠ s.numActiveChannels → slotAt (r.apply b s) j = slotAt s j := by
  cases r with
  | reference channel vRef =>
    have h := reference_appends b s channel vRef hwf hnf hk h8
    exact ⟨h.2.1, h.2.2.1, h.2.2.2.2.2⟩
  | handle channel vRef handler =>
    have h := handle_appends b s channel vRef handler hwf hnf hk h8
    exact ⟨h.2.1, h.2.2.1, h.2.2.2.2.2.2⟩

/-- Registering channels 1, 2, 3 in this order on the fresh instance of a build with
`N >= 3` gives one active channel after the first call and three after the third. -/
theorem count_after_one_two_three (b : Build) (r1 r2 r3 : Registration)
    (h1 : r1.channel = 1) (h2 : r2.channel = 2) (h3 : r3.channel = 3) (hN : 3 ≤ b.N) :
    (registerAll b (fresh b) [r1]).numActiveChannels = 1 ∧
    (registerAll b (fresh b) [r1, r2, r3]).numActiveChannels = 3 := by
  have hw0 := WF_fresh b
  have hf0 : findChannel (fresh b) r1.channel = -1 := rfl
  have a1 := apply_appends b (fresh b) r1 hw0 hf0 (show 0 < b.N by omega)
    (show 0 < 255 by decide)
  have hw1 := WF_apply b (fresh b) r1 hw0
  have n1 : (r1.apply b (fresh b)).numActiveChannels = 1 := a1.1
  have d10 : decodeChannelAt (r1.apply b (fresh b)) 0 = 1 := by
    have := a1.2.1
    rw [h1] at this
    exact this
  have hf1 : findChannel (r1.apply b (fresh b)) r2.channel = -1 := by
    apply (findChannel_not_found_iff _ _).2
    intro k hk
    rw [n1] at hk
    have hk0 : k = 0 := by omega
    rw [hk0, d10, h2]
    decide
  have a2 := apply_appends b (r1.apply b (fresh b)) r2 hw1 hf1 (by rw [n1]; omega)
    (by rw [n1]; decide)
  rw [n1] at a2
  have hw2 := WF_apply b _ r2 hw1
  have n2 : (r2.apply b (r1.apply b (fresh b))).numActiveChannels = 2 := a2.1
  have d20 : decodeChannelAt (r2.apply b (r1.apply b (fresh b))) 0 = 1 := by
    rw [← d10]
    exact decodeChannelAt_of_byte_eq _ _ 0 (by rw [a2.2.2 0 (by decide)])
  have d21 : decodeChannelAt (r2.apply b (r1.apply b (fresh b))) 1 = 2 := by
    have := a2.2.1
    rw [h2] at this
    exact this
  have hf2 : findChannel (r2.apply b (r1.apply b (fresh b))) r3.channel = -1 := by
    apply (findChannel_not_found_iff _ _).2
    intro k hk
    rw [n2] at hk
    have hk0 : k = 0 ∨ k = 1 := by omega
    rcases hk0 with hk0 | hk0
    · rw [hk0, d20, h3]; decide
    · rw [hk0, d21, h3]; decide
  have a3 := apply_appends b _ r3 hw2 hf2 (by rw [n2]; omega) (by rw [n2]; decide)
  rw [n2] at a3
  exact ⟨n1, a3.1⟩

theorem samplePeriodMicros_lt (b : Build) : samplePeriodMicros b < 65536 :=
  Nat.mod_lt _ (by decide)

/-- C10: in every state reached from the fresh instance by `reference` and `handle` calls,
`channelSamplePeriodMicros` is `samplePeriodMicros * numActiveChannels` reduced to 16 bits.
In particular, for `N >= 3`, after registering channels 1, 2, 3 in this order the period is
three times the period after registering channel 1 alone, which is `samplePeriodMicros`:
as 16-bit values always, and as plain numbers whenever `3 * samplePeriodMicros` fits in
16 bits. -/
theorem C10_period_scaling (b : Build) :
    (∀ calls : List Registration,
      (registerAll b (fresh b) calls).channelSamplePeriodMicros
        = (samplePeriodMicros b * (registerAll b (fresh b) calls).numActiveChannels)
          % 65536) ∧
    (∀ r1 r2 r3 : Registration, r1.channel = 1 → r2.channel = 2 → r3.channel = 3 →
      3 ≤ b.N →
      (registerAll b (fresh b) [r1]).channelSamplePeriodMicros = samplePeriodMicros b ∧
      (registerAll b (fresh b) [r1, r2, r3]).channelSamplePeriodMicros
        = (3 * (registerAll b (fresh b) [r1]).channelSamplePeriodMicros) % 65536 ∧
      (3 * samplePeriodMicros b < 65536 →
        (registerAll b (fresh b) [r1, r2, r3]).channelSamplePeriodMicros
          = 3 * (registerAll b (fresh b) [r1]).channelSamplePeriodMicros)) := by
  have hinv : ∀ calls : List Registration, periodScaled b (registerAll b (fresh b) calls) :=
    fun calls => periodScaled_registerAll b calls (fresh b) rfl
  refine ⟨hinv, ?_⟩
  intro r1 r2 r3 h1 h2 h3 hN
  have hc := count_after_one_two_three b r1 r2 r3 h1 h2 h3 hN
  have hlt := samplePeriodMicros_lt b
  have p1 : (registerAll b (fresh b) [r1]).channelSamplePeriodMicros
      = samplePeriodMicros b := by
    rw [hinv [r1], hc.1, Nat.mul_one]
    exact Nat.mod_eq_of_lt hlt
  have p3 : (registerAll b (fresh b) [r1, r2, r3]).channelSamplePeriodMicros
      = (3 * samplePeriodMicros b) % 65536 := by
    rw [hinv [r1, r2, r3], hc.2, Nat.mul_comm]
  refine ⟨p1, by rw [p3, p1], ?_⟩
  intro hfit
  rw [p3, p1]
  exact Nat.mod_eq_of_lt hfit

/-- C10 on a capacity-3 build at 16 MHz: one channel gives 112, three channels give 336. -/
theorem C10_period_scaling_witness :
    (registerAll tripleBuild (fresh tripleBuild) [.reference 1 0]).channelSamplePeriodMicros
      = 112 ∧
    (registerAll tripleBuild (fresh tripleBuild)
      [.reference 1 0, .handle 2 0 77, .reference 3 1]).channelSamplePeriodMicros
      = 3 * (registerAll tripleBuild (fresh tripleBuild)
          [.reference 1 0]).channelSamplePeriodMicros :=
  ⟨by decide,
   ((C10_period_scaling tripleBuild).2 (.reference 1 0) (.handle 2 0 77) (.reference 3 1)
      rfl rfl rfl (by decide)).2.2 (by decide)⟩

/-! ## The interrupt handler body: delivery -/

theorem fire_of_polling (s : FastADC) (ADC ADMUX i : Nat)
    (hf : findChannel s ((ADMUX % 256) &&& 0x0f) = (i : Int))
    (hp : isCallbackChannelAt s i = false) :
    (handleResultThenNextChannel s ADC ADMUX).state
      = setSlotAt { s with debug := (s.debug + 1) % 4294967296 } i
          { slotAt s i with payload := ADC % 65536 } ∧
    (handleResultThenNextChannel s ADC ADMUX).calls = [] := by
  have hp2 : isCallbackChannelAt { s with debug := (s.debug + 1) % 4294967296 } i = false := hp
  have h0 : (0 : Int) ≤ (i : Int) := Int.ofNat_nonneg i
  unfold handleResultThenNextChannel
  simp only [findChannel_debug, hf, h0, if_true, Int.toNat_ofNat, hp2]
  exact ⟨rfl, rfl⟩

theorem fire_of_callback (s : FastADC) (ADC ADMUX i : Nat)
    (hf : findChannel s ((ADMUX % 256) &&& 0x0f) = (i : Int))
    (hc : isCallbackChannelAt s i = true) :
    (handleResultThenNextChannel s ADC ADMUX).state
      = { s with debug := (s.debug + 1) % 4294967296 } ∧
    (handleResultThenNextChannel s ADC ADMUX).calls
      = [⟨(slotAt s i).handler, ADC % 65536, s.channelSamplePeriodMicros⟩] := by
  have hc2 : isCallbackChannelAt { s with debug := (s.debug + 1) % 4294967296 } i = true := hc
  have h0 : (0 : Int) ≤ (i : Int) := Int.ofNat_nonneg i
  unfold handleResultThenNextChannel
  simp only [findChannel_debug, hf, h0, if_true, Int.toNat_ofNat, hc2]
  constructor <;> first | rfl | trivial

theorem findChannel_fire (s : FastADC) (ADC ADMUX channel : Nat) :
    findChannel (handleResultThenNextChannel s ADC ADMUX).state channel
      = findChannel s channel := by
  have hfr := fire_frame s ADC ADMUX
  exact findChannel_congr s _ channel hfr.1
    (fun k _ => decodeChannelAt_of_byte_eq s _ k (hfr.2.2.2.2 k))

theorem isCallbackChannelAt_fire (s : FastADC) (ADC ADMUX i : Nat) :
    isCallbackChannelAt (handleResultThenNextChannel s ADC ADMUX).state i
      = isCallbackChannelAt s i :=
  (decoders_of_byte_eq s _ i i ((fire_frame s ADC ADMUX).2.2.2.2 i)).2.2

/-- What one run of the handler body does when the channel in `ADMUX` is found at a polling
slot `i`. -/
theorem fire_polling_facts (b : Build) (s : FastADC) (ADC ADMUX i : Nat) (hwf : WF b s)
    (hf : findChannel s ((ADMUX % 256) &&& 0x0f) = (i : Int))
    (hp : isCallbackChannelAt s i = false) :
    (slotAt (handleResultThenNextChannel s ADC ADMUX).state i).result = ADC % 65536 ∧
    (handleResultThenNextChannel s ADC ADMUX).calls = [] ∧
    (slotAt (handleResultThenNextChannel s ADC ADMUX).state i).type_vRef_channel
      = (slotAt s i).type_vRef_channel ∧
    (∀ j, j ≠ i → slotAt (handleResultThenNextChannel s ADC ADMUX).state j = slotAt s j) ∧
    (handleResultThenNextChannel s ADC ADMUX).state.numActiveChannels
      = s.numActiveChannels ∧
    (handleResultThenNextChannel s ADC ADMUX).state.channelSamplePeriodMicros
      = s.channelSamplePeriodMicros ∧
    read (handleResultThenNextChannel s ADC ADMUX).state ((ADMUX % 256) &&& 0x0f)
      = toInt16 (ADC % 65536) := by
  have hi : i < s.numActiveChannels := by
    rcases findChannel_spec s ((ADMUX % 256) &&& 0x0f) with ⟨h1, _⟩ | ⟨j, h1, h2, _⟩
    · rw [h1] at hf; omega
    · have : j = i := by rw [h1] at hf; omega
      rw [← this]; exact h2
  have hlen : i < s.perChannelResults.length := by
    rw [hwf.1]; exact lt_of_lt_of_le hi hwf.2
  have hfr := fire_frame s ADC ADMUX
  have hst := fire_of_polling s ADC ADMUX i hf hp
  have hslot : slotAt (handleResultThenNextChannel s ADC ADMUX).state i
      = { slotAt s i with payload := ADC % 65536 } := by
    rw [hst.1]
    exact slotAt_setSlotAt_self { s with debug := (s.debug + 1) % 4294967296 } i _ hlen
  have hres : (slotAt (handleResultThenNextChannel s ADC ADMUX).state i).result
      = ADC % 65536 := by
    rw [hslot]
    show ADC % 65536 % 65536 = ADC % 65536
    exact Nat.mod_mod _ _
  refine ⟨hres, hst.2, hfr.2.2.2.2 i, ?_, hfr.1, hfr.2.1, ?_⟩
  · intro j hj
    rw [hst.1]
    exact slotAt_setSlotAt_ne { s with debug := (s.debug + 1) % 4294967296 } i j _
      (Ne.symm hj)
  · rw [read_of_polling _ _ i (by rw [findChannel_fire]; exact hf)
      (by rw [isCallbackChannelAt_fire]; exact hp), hres]

/-- C12, as amended: when `findChannel(ADMUX & 0x0f) = i >= 0` in a well-formed instance and
slot `i` is in polling mode, one run of the handler body leaves in slot `i` the 16-bit value
read from `ADC` as cached result, invokes no handler, and leaves the metadata byte of slot
`i`, every other slot, `numActiveChannels` and `channelSamplePeriodMicros` unchanged; an
immediately following `read` of that identity returns that value converted to the 16-bit
`int` of the target, which is the `ADC` value itself whenever it is below `0x8000`. -/
theorem C12_polling_delivery (b : Build) (s : FastADC) (ADC ADMUX i : Nat) (hwf : WF b s)
    (hf : findChannel s ((ADMUX % 256) &&& 0x0f) = (i : Int))
    (hp : isCallbackChannelAt s i = false) :
    (slotAt (handleResultThenNextChannel s ADC ADMUX).state i).result = ADC % 65536 ∧
    (handleResultThenNextChannel s ADC ADMUX).calls = [] ∧
    (slotAt (handleResultThenNextChannel s ADC ADMUX).state i).type_vRef_channel
      = (slotAt s i).type_vRef_channel ∧
    (∀ j, j ≠ i → slotAt (handleResultThenNextChannel s ADC ADMUX).state j = slotAt s j) ∧
    (handleResultThenNextChannel s ADC ADMUX).state.numActiveChannels
      = s.numActiveChannels ∧
    (handleResultThenNextChannel s ADC ADMUX).state.channelSamplePeriodMicros
      = s.channelSamplePeriodMicros ∧
    read (handleResultThenNextChannel s ADC ADMUX).state ((ADMUX % 256) &&& 0x0f)
      = toInt16 (ADC % 65536) ∧
    (ADC < 32768 →
      (slotAt (handleResultThenNextChannel s ADC ADMUX).state i).result = ADC ∧
      read (handleResultThenNextChannel s ADC ADMUX).state ((ADMUX % 256) &&& 0x0f)
        = (ADC : Int)) := by
  have h := fire_polling_facts b s ADC ADMUX i hwf hf hp
  refine ⟨h.1, h.2.1, h.2.2.1, h.2.2.2.1, h.2.2.2.2.1, h.2.2.2.2.2.1, h.2.2.2.2.2.2, ?_⟩
  intro hlt
  have hm : ADC % 65536 = ADC := Nat.mod_eq_of_lt (by omega)
  refine ⟨by rw [h.1, hm], ?_⟩
  rw [h.2.2.2.2.2.2, hm, toInt16_of_lt ADC hlt]

/-- C12 on the table holding channels 3 and 5: a run with `ADMUX` on channel 3 and
`ADC = 512` caches 512 in slot 0 and `read(3)` returns 512. -/
theorem C12_polling_delivery_witness :
    WF demoBuild pairTable ∧
    findChannel pairTable ((3 % 256) &&& 0x0f) = ((0 : Nat) : Int) ∧
    isCallbackChannelAt pairTable 0 = false ∧
    (slotAt (handleResultThenNextChannel pairTable 512 3).state 0).result = 512 ∧
    read (handleResultThenNextChannel pairTable 512 3).state ((3 % 256) &&& 0x0f) = 512 :=
  ⟨by decide, by decide, by decide,
   ((C12_polling_delivery demoBuild pairTable 512 3 0 (by decide) (by decide)
      (by decide)).2.2.2.2.2.2.2 (by decide)).1,
   ((C12_polling_delivery demoBuild pairTable 512 3 0 (by decide) (by decide)
      (by decide)).2.2.2.2.2.2.2 (by decide)).2⟩

/-- C12 as stated fails for an `ADC` value from `0x8000` on: on the capacity-1 table holding
channel 0 in polling mode, a run with `ADC = 40000` caches 40000, and the following
`read(0)` returns `-25536`, not the `ADC` value. -/
theorem C12_polling_delivery_counterexample :
    findChannel (reference soloBuild (fresh soloBuild) 0 0).2 ((0 % 256) &&& 0x0f)
      = ((0 : Nat) : Int) ∧
    isCallbackChannelAt (reference soloBuild (fresh soloBuild) 0 0).2 0 = false ∧
    (slotAt (handleResultThenNextChannel
      (reference soloBuild (fresh soloBuild) 0 0).2 40000 0).state 0).result = 40000 ∧
    read (handleResultThenNextChannel
      (reference soloBuild (fresh soloBuild) 0 0).2 40000 0).state 0 = -25536 ∧
    read (handleResultThenNextChannel
      (reference soloBuild (fresh soloBuild) 0 0).2 40000 0).state 0 ≠ 40000 := by
  decide

/-- C13: when `findChannel(ADMUX & 0x0f) = i >= 0` and slot `i` is in callback mode, one run
of the handler body makes exactly one call, to the handler stored in slot `i`, with the
16-bit value read from `ADC` and the current `channelSamplePeriodMicros` as arguments; it
writes no slot, and `read` of that identity still returns `-1` afterwards. -/
theorem C13_callback_delivery (s : FastADC) (ADC ADMUX i : Nat)
    (hf : findChannel s ((ADMUX % 256) &&& 0x0f) = (i : Int))
    (hc : isCallbackChannelAt s i = true) :
    (handleResultThenNextChannel s ADC ADMUX).calls
      = [⟨(slotAt s i).handler, ADC % 65536, s.channelSamplePeriodMicros⟩] ∧
    (handleResultThenNextChannel s ADC ADMUX).state.perChannelResults
      = s.perChannelResults ∧
    read (handleResultThenNextChannel s ADC ADMUX).state ((ADMUX % 256) &&& 0x0f) = -1 := by
  have hst := fire_of_callback s ADC ADMUX i hf hc
  refine ⟨hst.2, by rw [hst.1], ?_⟩
  exact read_of_callback _ _ i (by rw [findChannel_fire]; exact hf)
    (by rw [isCallbackChannelAt_fire]; exact hc)

/-- C13 on the table holding channels 3 and 5: a run with `ADMUX` on channel 5 and
`ADC = 900` calls handler 77 once with `(900, 224)`. -/
theorem C13_callback_delivery_witness :
    findChannel pairTable ((5 % 256) &&& 0x0f) = ((1 : Nat) : Int) ∧
    isCallbackChannelAt pairTable 1 = true ∧
    (handleResultThenNextChannel pairTable 900 5).calls = [⟨77, 900, 224⟩] ∧
    read (handleResultThenNextChannel pairTable 900 5).state ((5 % 256) &&& 0x0f) = -1 :=
  ⟨by decide, by decide,
   (C13_callback_delivery pairTable 900 5 1 (by decide) (by decide)).1,
   (C13_callback_delivery pairTable 900 5 1 (by decide) (by decide)).2.2⟩

/-! ## The scenario of capacity 2 -/

theorem scenario_reference_3 (F : Nat) :
    reference (scenarioBuild F) (fresh (scenarioBuild F)) 3 0
      = (true, ⟨[⟨3, 0⟩, ⟨0, 0⟩], 1, (samplePeriodMicros (scenarioBuild F) * 1) % 65536, 0⟩) :=
  rfl

theorem scenario_handle_5 (F H : Nat) :
    handle (scenarioBuild F)
      ⟨[⟨3, 0⟩, ⟨0, 0⟩], 1, (samplePeriodMicros (scenarioBuild F) * 1) % 65536, 0⟩ 5 1 H
      = (true,
          ⟨[⟨3, 0⟩, ⟨149, H⟩], 2, (samplePeriodMicros (scenarioBuild F) * 2) % 65536, 0⟩) := by
  simp +decide [scenarioBuild, handle, findChannel, findChannelLoop, decodeChannelAt, slotAt,
    activateChannel, encodeChannelAt, setSlotAt, encodeByte, boolToNat]

theorem scenario_reference_7 (F H : Nat) :
    reference (scenarioBuild F)
      ⟨[⟨3, 0⟩, ⟨149, H⟩], 2, (samplePeriodMicros (scenarioBuild F) * 2) % 65536, 0⟩ 7 0
      = (false,
          ⟨[⟨3, 0⟩, ⟨149, H⟩], 2, (samplePeriodMicros (scenarioBuild F) * 2) % 65536, 0⟩) := by
  simp +decide [scenarioBuild, reference, findChannel, findChannelLoop, decodeChannelAt,
    slotAt, activateChannel, encodeChannelAt, setSlotAt, encodeByte, boolToNat]

theorem scenarioTable_eq (F H : Nat) :
    scenarioTable F H
      = ⟨[⟨3, 0⟩, ⟨149, H⟩], 2, (samplePeriodMicros (scenarioBuild F) * 2) % 65536, 0⟩ := by
  unfold scenarioTable
  rw [scenario_reference_3, scenario_handle_5, scenario_reference_7]

theorem scenarioFirst_eq (F H ADMUX : Nat) (h : (ADMUX % 256) &&& 0x0f = 3) :
    scenarioFirst F H ADMUX
      = ⟨⟨[⟨3, 512⟩, ⟨149, H⟩], 2, (samplePeriodMicros (scenarioBuild F) * 2) % 65536, 1⟩,
          69, []⟩ := by
  have t1 : Int.tmod 1 2 = 1 := by decide
  unfold scenarioFirst
  rw [scenarioTable_eq]
  simp +decide [t1, handleResultThenNextChannel, h, findChannel, findChannelLoop,
    decodeChannelAt, slotAt, setSlotAt, isCallbackChannelAt, findNextChannel, decodeVRefAt]

theorem scenarioSecond_eq (F H ADMUX0 ADMUX1 : Nat) (h0 : (ADMUX0 % 256) &&& 0x0f = 3)
    (h1 : (ADMUX1 % 256) &&& 0x0f = 5) :
    scenarioSecond F H ADMUX0 ADMUX1
      = ⟨⟨[⟨3, 512⟩, ⟨149, H⟩], 2, (samplePeriodMicros (scenarioBuild F) * 2) % 65536, 2⟩, 3,
          [⟨H, 900, (samplePeriodMicros (scenarioBuild F) * 2) % 65536⟩]⟩ := by
  have t2 : Int.tmod 2 2 = 0 := by decide
  unfold scenarioSecond
  rw [scenarioFirst_eq F H ADMUX0 h0]
  simp +decide [t2, handleResultThenNextChannel, h1, findChannel, findChannelLoop,
    decodeChannelAt, slotAt, setSlotAt, isCallbackChannelAt, findNextChannel, decodeVRefAt,
    ChannelResult.handler]

/-- C11: with capacity 2, from the fresh instance, `reference(3, 0)` returns true with one
active channel, `handle(5, 1, H)` returns true with two, `reference(7, 0)` returns false
with still two. A run of the handler body with identity 3 in `ADMUX` and `ADC = 512` makes
`read(3) = 512` and writes identity 5 with selector 1 to `ADMUX`; a following run with
identity 5 in `ADMUX` and `ADC = 900` calls `H` exactly once with 900 and the period for
two channels (`2 * samplePeriodMicros` as a 16-bit value, and as a plain number whenever
that fits in 16 bits) and writes identity 3 with selector 0 to `ADMUX`. -/
theorem C11_scenario (F H ADMUX0 ADMUX1 : Nat) (h0 : (ADMUX0 % 256) &&& 0x0f = 3)
    (h1 : (ADMUX1 % 256) &&& 0x0f = 5) :
    ((reference (scenarioBuild F) (fresh (scenarioBuild F)) 3 0).1 = true ∧
      (reference (scenarioBuild F) (fresh (scenarioBuild F)) 3 0).2.numActiveChannels = 1) ∧
    ((handle (scenarioBuild F)
        (reference (scenarioBuild F) (fresh (scenarioBuild F)) 3 0).2 5 1 H).1 = true ∧
      (handle (scenarioBuild F)
        (reference (scenarioBuild F) (fresh (scenarioBuild F)) 3 0).2 5 1 H).2.numActiveChannels
        = 2) ∧
    ((reference (scenarioBuild F)
        (handle (scenarioBuild F)
          (reference (scenarioBuild F) (fresh (scenarioBuild F)) 3 0).2 5 1 H).2 7 0).1
        = false ∧
      (scenarioTable F H).numActiveChannels = 2) ∧
    (read (scenarioFirst F H ADMUX0).state 3 = 512 ∧
      (scenarioFirst F H ADMUX0).ADMUX &&& 0x0f = 5 ∧
      (scenarioFirst F H ADMUX0).ADMUX >>> 6 = 1 ∧
      (scenarioFirst F H ADMUX0).calls = []) ∧
    ((scenarioSecond F H ADMUX0 ADMUX1).calls
        = [⟨H, 900, (2 * samplePeriodMicros (scenarioBuild F)) % 65536⟩] ∧
      (2 * samplePeriodMicros (scenarioBuild F) < 65536 →
        (scenarioSecond F H ADMUX0 ADMUX1).calls
          = [⟨H, 900, 2 * samplePeriodMicros (scenarioBuild F)⟩]) ∧
      (scenarioSecond F H ADMUX0 ADMUX1).ADMUX &&& 0x0f = 3 ∧
      (scenarioSecond F H ADMUX0 ADMUX1).ADMUX >>> 6 = 0) ∧
    (((scenarioFirst F H ADMUX0).ADMUX % 256) &&& 0x0f = 5) := by
  have e1 := scenario_reference_3 F
  have e2 := scenario_handle_5 F H
  have e3 := scenario_reference_7 F H
  have f1 := scenarioFirst_eq F H ADMUX0 h0
  have f2 := scenarioSecond_eq F H ADMUX0 ADMUX1 h0 h1
  have hcomm : samplePeriodMicros (scenarioBuild F) * 2
      = 2 * samplePeriodMicros (scenarioBuild F) := Nat.mul_comm _ _
  refine ⟨?_, ?_, ?_, ?_, ?_, ?_⟩
  · rw [e1]; exact ⟨rfl, rfl⟩
  · rw [e1, e2]; exact ⟨rfl, rfl⟩
  · rw [e1, e2, e3, scenarioTable_eq]; exact ⟨rfl, rfl⟩
  · rw [f1]
    refine ⟨?_, by show (69 : Nat) &&& 0x0f = 5; decide,
      by show (69 : Nat) >>> 6 = 1; decide, rfl⟩
    simp +decide [read, findChannel, findChannelLoop, decodeChannelAt, slotAt,
      isCallbackChannelAt, toInt16, ChannelResult.result]
  · rw [f2, hcomm]
    refine ⟨rfl, ?_, by show (3 : Nat) &&& 0x0f = 3; decide,
      by show (3 : Nat) >>> 6 = 0; decide⟩
    intro hfit
    rw [Nat.mod_eq_of_lt hfit]
  · rw [f1]
    show ((69 : Nat) % 256) &&& 0x0f = 5
    decide

/-- C11 at 16 MHz with handler 77, first `ADMUX` 3 and second `ADMUX` 69 (the value written
by the first run): the handler is called once with `(900, 224)`. -/
theorem C11_scenario_witness :
    (3 % 256) &&& 0x0f = 3 ∧ (69 % 256) &&& 0x0f = 5 ∧
    (scenarioFirst 16000000 77 3).ADMUX = 69 ∧
    read (scenarioFirst 16000000 77 3).state 3 = 512 ∧
    (scenarioSecond 16000000 77 3 69).calls = [⟨77, 900, 224⟩] :=
  ⟨by decide, by decide, by decide,
   (C11_scenario 16000000 77 3 69 (by decide) (by decide)).2.2.2.1.1,
   (C11_scenario 16000000 77 3 69 (by decide) (by decide)).2.2.2.2.1.2.1 (by decide)⟩

/-! ## The diagnostic counter -/

theorem debug_reference (b : Build) (s : FastADC) (channel vRef : Nat) :
    (reference b s channel vRef).2.debug = s.debug := by
  rcases reference_cases b s channel vRef with ⟨j, _, _, _, e⟩ | ⟨_, _, e⟩ | ⟨_, _, e⟩ <;>
    rw [e] <;> rfl

theorem debug_handle (b : Build) (s : FastADC) (channel vRef : Nat) (handler : HANDLER) :
    (handle b s channel vRef handler).2.debug = s.debug := by
  rcases handle_cases b s channel vRef handler with ⟨j, _, _, _, e⟩ | ⟨_, _, e⟩ | ⟨_, _, e⟩ <;>
    rw [e] <;> rfl

/-- C14: every run of the handler body adds exactly 1 to the value returned by `getDebug`,
in 32-bit unsigned arithmetic, whether the channel in `ADMUX` is found in polling mode,
found in callback mode, not found, or no channel is active; `reference` and `handle` leave
it unchanged, `read` returns no new instance, and a fresh instance reports 0. -/
theorem C14_diagnostic_counter (b : Build) (s : FastADC) (ADC ADMUX channel vRef : Nat)
    (handler : HANDLER) :
    getDebug (handleResultThenNextChannel s ADC ADMUX).state
      = (getDebug s + 1) % 4294967296 ∧
    getDebug (reference b s channel vRef).2 = getDebug s ∧
    getDebug (handle b s channel vRef handler).2 = getDebug s ∧
    getDebug (fresh b) = 0 :=
  ⟨(fire_frame s ADC ADMUX).2.2.1, debug_reference b s channel vRef,
    debug_handle b s channel vRef handler, rfl⟩

/-! ## The count of active channels never decreases -/

theorem numActiveChannels_appended_ge (b : Build) (s : FastADC) (channel vRef : Nat)
    (flag : Bool) (hN : b.N ≤ 255) (hn : s.numActiveChannels < b.N) :
    s.numActiveChannels ≤ (appended b s channel vRef flag).numActiveChannels := by
  rw [numActiveChannels_appended, Nat.mod_eq_of_lt (by omega)]
  omega

/-- C15, as amended: for every capacity `N <= 255`, every state and every single operation
(`reference`, `handle`, a run of the handler body; `read` returns no new instance),
`numActiveChannels` after the operation is at least `numActiveChannels` before it. -/
theorem C15_count_monotone (b : Build) (s : FastADC) (ADC ADMUX channel vRef : Nat)
    (handler : HANDLER) (hN : b.N ≤ 255) :
    s.numActiveChannels ≤ (reference b s channel vRef).2.numActiveChannels ∧
    s.numActiveChannels ≤ (handle b s channel vRef handler).2.numActiveChannels ∧
    s.numActiveChannels
      ≤ (handleResultThenNextChannel s ADC ADMUX).state.numActiveChannels := by
  refine ⟨?_, ?_, ?_⟩
  · rcases reference_cases b s channel vRef with ⟨j, _, _, _, e⟩ | ⟨_, hn, e⟩ | ⟨_, _, e⟩
    · rw [e]; exact le_refl _
    · rw [e]; exact numActiveChannels_appended_ge b s channel vRef false hN hn
    · rw [e]
  · rcases handle_cases b s channel vRef handler with ⟨j, _, _, _, e⟩ | ⟨_, hn, e⟩ | ⟨_, _, e⟩
    · rw [e]; exact le_refl _
    · rw [e]; exact numActiveChannels_appended_ge b s channel vRef true hN hn
    · rw [e]
  · rw [(fire_frame s ADC ADMUX).1]

/-- C15 on the capacity-2 table holding channel 3: registering channel 5 raises the count
from 1 to 2. -/
theorem C15_count_monotone_witness :
    demoBuild.N ≤ 255 ∧
    demoTable.numActiveChannels ≤ (reference demoBuild demoTable 5 0).2.numActiveChannels ∧
    (reference demoBuild demoTable 5 0).2.numActiveChannels = 2 :=
  ⟨by decide, (C15_count_monotone demoBuild demoTable 0 0 5 0 0 (by decide)).1, by decide⟩

/-- C15 as stated fails for capacity 256: on the table left by 255 calls `reference(16, 0)`
the call `reference(1, 0)` takes `numActiveChannels` from 255 down to 0. -/
theorem C15_count_monotone_counterexample :
    registerAll wrapBuild (fresh wrapBuild) (List.replicate 255 (.reference 16 0))
      = wrapTable ∧
    wrapTable.numActiveChannels = 255 ∧
    (reference wrapBuild wrapTable 1 0).2.numActiveChannels = 0 ∧
    ¬ wrapTable.numActiveChannels ≤ (reference wrapBuild wrapTable 1 0).2.numActiveChannels := by
  have hnf := findChannel_wrapTable 1 (by decide)
  have hk : wrapTable.numActiveChannels < wrapBuild.N := by decide
  have h0 : (reference wrapBuild wrapTable 1 0).2.numActiveChannels = 0 := by
    rw [reference_room wrapBuild wrapTable 1 0 hnf hk]
    rfl
  refine ⟨wrapTable_reached, rfl, h0, ?_⟩
  rw [h0]
  decide

/-! ## The next slot -/

/-- C16: with `numActiveChannels = k` and `afterChannelIndex >= -1`, in particular for every
`afterChannelIndex` in `[-1, k-1]`, `findNextChannel` returns `-1` exactly when `k = 0`;
otherwise it returns `(afterChannelIndex + 1) mod k`, a value in `[0, k-1]`, which is 0 for
`afterChannelIndex = -1` and 0 for `afterChannelIndex = k-1`. -/
theorem C16_findNextChannel (s : FastADC) (a : Int) (hlo : -1 ≤ a) :
    (findNextChannel s a = -1 ↔ s.numActiveChannels = 0) ∧
    (s.numActiveChannels ≠ 0 →
      findNextChannel s a = (a + 1) % (s.numActiveChannels : Int) ∧
      0 ≤ findNextChannel s a ∧
      findNextChannel s a ≤ (s.numActiveChannels : Int) - 1 ∧
      (a = -1 → findNextChannel s a = 0) ∧
      (a = (s.numActiveChannels : Int) - 1 → findNextChannel s a = 0)) := by
  have hpos : ∀ h : s.numActiveChannels ≠ 0,
      findNextChannel s a = (a + 1) % (s.numActiveChannels : Int) := by
    intro h
    simp only [findNextChannel, h, if_false]
    exact Int.tmod_eq_emod (by omega) (Int.ofNat_nonneg _)
  by_cases hk : s.numActiveChannels = 0
  · refine ⟨⟨fun _ => hk, fun _ => by simp [findNextChannel, hk]⟩, fun h => absurd hk h⟩
  · have hkpos : (0 : Int) < (s.numActiveChannels : Int) := by omega
    have hnn : 0 ≤ (a + 1) % (s.numActiveChannels : Int) := Int.emod_nonneg _ (by omega)
    have hlt : (a + 1) % (s.numActiveChannels : Int) < (s.numActiveChannels : Int) :=
      Int.emod_lt_of_pos _ hkpos
    refine ⟨⟨fun h => ?_, fun h => absurd h hk⟩, fun _ => ⟨hpos hk, ?_, ?_, ?_, ?_⟩⟩
    · rw [hpos hk] at h; omega
    · rw [hpos hk]; exact hnn
    · rw [hpos hk]; omega
    · intro ha
      rw [hpos hk, ha]
      simp
    · intro ha
      rw [hpos hk, ha]
      simp

/-- C16 on the table holding channels 3 and 5: after slot 1 comes slot 0. -/
theorem C16_findNextChannel_witness :
    pairTable.numActiveChannels ≠ 0 ∧ findNextChannel pairTable 1 = 0 ∧
    findNextChannel pairTable (-1) = 0 :=
  ⟨by decide,
   ((C16_findNextChannel pairTable 1 (by decide)).2 (by decide)).2.2.2.2
     (by decide),
   ((C16_findNextChannel pairTable (-1) (by decide)).2 (by decide)).2.2.2.1 rfl⟩

/-! ## Programming the multiplexer -/

theorem shl6_or_value (v c : Nat) (hc : c < 16) : (v <<< 6) ||| c = 64 * v + c := by
  have hlt : c < 2 ^ 6 := by
    have : (2 : Nat) ^ 6 = 64 := by decide
    omega
  have hor : 2 ^ 6 * v ||| c = 2 ^ 6 * v + c := (Nat.mul_add_lt_is_or hlt v).symm
  have h64 : (2 : Nat) ^ 6 = 64 := by decide
  rw [Nat.shiftLeft_eq, Nat.mul_comm, hor, h64]

/-- The written value `64 * v + c` seen through its fields. -/
theorem admux_fields (v c : Nat) (hv : v < 4) (hc : c < 16) :
    64 * v + c = (v <<< 6) ||| c ∧ (64 * v + c) &&& 0x0f = c ∧
    ((64 * v + c) >>> 4) &&& 0x03 = 0 ∧ (64 * v + c) >>> 6 = v ∧ 64 * v + c < 256 := by
  have h4 : (2 : Nat) ^ 4 = 16 := by decide
  have h6 : (2 : Nat) ^ 6 = 64 := by decide
  refine ⟨(shl6_or_value v c hc).symm, ?_, ?_, ?_, by omega⟩
  · rw [and_15_eq_mod]; omega
  · rw [and_3_eq_mod, Nat.shiftRight_eq_div_pow, h4]; omega
  · rw [Nat.shiftRight_eq_div_pow, h6]; omega

/-- C17: with `numActiveChannels = k >= 1`, after one run of the handler body `ADMUX` equals
`(decodeVRefAt(j) << 6) | decodeChannelAt(j)`, with bits 4 and 5 clear, where
`j = (i + 1) mod k` and `i = findChannel(old ADMUX & 0x0f)` (`-1` when not found); `j` is
the index of an occupied slot, so the programmed identity is that of an occupied slot, and
the decoders give the same values before and after the run. With `numActiveChannels = 0`
the run leaves `ADMUX` unchanged. -/
theorem C17_multiplexer_programming (s : FastADC) (ADC ADMUX : Nat) :
    (1 ≤ s.numActiveChannels →
      ((findChannel s ((ADMUX % 256) &&& 0x0f) + 1) % (s.numActiveChannels : Int)).toNat
        < s.numActiveChannels ∧
      (handleResultThenNextChannel s ADC ADMUX).ADMUX
        = (decodeVRefAt s
            ((findChannel s ((ADMUX % 256) &&& 0x0f) + 1)
              % (s.numActiveChannels : Int)).toNat <<< 6) |||
          decodeChannelAt s
            ((findChannel s ((ADMUX % 256) &&& 0x0f) + 1)
              % (s.numActiveChannels : Int)).toNat ∧
      ((handleResultThenNextChannel s ADC ADMUX).ADMUX >>> 4) &&& 0x03 = 0 ∧
      (handleResultThenNextChannel s ADC ADMUX).ADMUX &&& 0x0f
        = decodeChannelAt s
            ((findChannel s ((ADMUX % 256) &&& 0x0f) + 1)
              % (s.numActiveChannels : Int)).toNat ∧
      (handleResultThenNextChannel s ADC ADMUX).ADMUX >>> 6
        = decodeVRefAt s
            ((findChannel s ((ADMUX % 256) &&& 0x0f) + 1)
              % (s.numActiveChannels : Int)).toNat) ∧
    (∀ m, decodeChannelAt (handleResultThenNextChannel s ADC ADMUX).state m
        = decodeChannelAt s m ∧
      decodeVRefAt (handleResultThenNextChannel s ADC ADMUX).state m = decodeVRefAt s m) ∧
    (s.numActiveChannels = 0 → (handleResultThenNextChannel s ADC ADMUX).ADMUX = ADMUX) := by
  refine ⟨?_, ?_, ?_⟩
  · intro hk
    have hkpos : (0 : Int) < (s.numActiveChannels : Int) := by omega
    have key : ∀ j : Nat, j < s.numActiveChannels →
        ((findChannel s ((ADMUX % 256) &&& 0x0f) + 1) % (s.numActiveChannels : Int)).toNat = j →
        (handleResultThenNextChannel s ADC ADMUX).ADMUX
          = 64 * decodeVRefAt s j + decodeChannelAt s j →
        ((findChannel s ((ADMUX % 256) &&& 0x0f) + 1) % (s.numActiveChannels : Int)).toNat
          < s.numActiveChannels ∧
        (handleResultThenNextChannel s ADC ADMUX).ADMUX
          = (decodeVRefAt s
              ((findChannel s ((ADMUX % 256) &&& 0x0f) + 1)
                % (s.numActiveChannels : Int)).toNat <<< 6) |||
            decodeChannelAt s
              ((findChannel s ((ADMUX % 256) &&& 0x0f) + 1)
                % (s.numActiveChannels : Int)).toNat ∧
        ((handleResultThenNextChannel s ADC ADMUX).ADMUX >>> 4) &&& 0x03 = 0 ∧
        (handleResultThenNextChannel s ADC ADMUX).ADMUX &&& 0x0f
          = decodeChannelAt s
              ((findChannel s ((ADMUX % 256) &&& 0x0f) + 1)
                % (s.numActiveChannels : Int)).toNat ∧
        (handleResultThenNextChannel s ADC ADMUX).ADMUX >>> 6
          = decodeVRefAt s
              ((findChannel s ((ADMUX % 256) &&& 0x0f) + 1)
                % (s.numActiveChannels : Int)).toNat := by
      intro j hj hidx hw
      have hfields := admux_fields (decodeVRefAt s j) (decodeChannelAt s j)
        (decodeVRefAt_lt s j) (decodeChannelAt_lt s j)
      rw [hidx, hw]
      exact ⟨hj, hfields.1, hfields.2.2.1, hfields.2.1, hfields.2.2.2.1⟩
    rcases findChannel_spec s ((ADMUX % 256) &&& 0x0f) with ⟨h1, _⟩ | ⟨i, h1, _, _, _⟩
    · refine key 0 (by omega) ?_ (fire_ADMUX_of_not_found s ADC ADMUX hk h1)
      rw [h1]
      simp
    · refine key ((i + 1) % s.numActiveChannels) (Nat.mod_lt _ (by omega)) ?_
        (fire_ADMUX_of_found s ADC ADMUX i hk h1)
      rw [h1]
      have : ((i : Int) + 1) % (s.numActiveChannels : Int)
          = (((i + 1) % s.numActiveChannels : Nat) : Int) := by
        push_cast
        rfl
      rw [this, Int.toNat_ofNat]
  · intro m
    have hb := (fire_frame s ADC ADMUX).2.2.2.2 m
    have hd := decoders_of_byte_eq s (handleResultThenNextChannel s ADC ADMUX).state m m hb
    exact ⟨hd.1, hd.2.1⟩
  · intro hk
    rw [fire_ADMUX]
    have hneg : ¬ (0 : Int) ≤ findNextChannel s (findChannel s ((ADMUX % 256) &&& 0x0f)) := by
      simp [findNextChannel, hk]
    rw [if_neg hneg]

/-- C17 on the table holding channels 3 and 5 with `ADMUX` on channel 3: the run writes
`(1 << 6) | 5 = 69`; on the fresh instance `ADMUX` is left as it is. -/
theorem C17_multiplexer_programming_witness :
    1 ≤ pairTable.numActiveChannels ∧
    (handleResultThenNextChannel pairTable 512 3).ADMUX = 69 ∧
    ((handleResultThenNextChannel pairTable 512 3).ADMUX >>> 4) &&& 0x03 = 0 ∧
    (handleResultThenNextChannel (fresh demoBuild) 512 3).ADMUX = 3 :=
  ⟨by decide, by decide,
   ((C17_multiplexer_programming pairTable 512 3).1 (by decide)).2.2.1,
   (C17_multiplexer_programming (fresh demoBuild) 512 3).2.2 (by decide)⟩

/-! ## The search, the encoding, and channel arguments out of range -/

/-- C18: `findChannel(c)` returns an index `i` exactly when `i` is the smallest index in
`[0, numActiveChannels-1]` whose decoded identity is `c`; it returns `-1`, which is no
index, exactly when no occupied slot has decoded identity `c`; it returns nothing else, so a
slot at an index from `numActiveChannels` on is never matched. -/
theorem C18_findChannel (s : FastADC) (c : Nat) :
    (∀ i : Nat, findChannel s c = (i : Int) ↔
      (i < s.numActiveChannels ∧ decodeChannelAt s i = c ∧
        ∀ k, k < i → decodeChannelAt s k ≠ c)) ∧
    (findChannel s c = -1 ↔ ∀ k, k < s.numActiveChannels → decodeChannelAt s k ≠ c) ∧
    (findChannel s c = -1 ∨
      ∃ i : Nat, findChannel s c = (i : Int) ∧ i < s.numActiveChannels) := by
  refine ⟨?_, findChannel_not_found_iff s c, ?_⟩
  · intro i
    constructor
    · intro h
      rcases findChannel_spec s c with ⟨h1, _⟩ | ⟨j, h1, h2, h3, h4⟩
      · rw [h1] at h; omega
      · have hji : j = i := by rw [h1] at h; omega
        rw [← hji]
        exact ⟨h2, h3, h4⟩
    · intro h
      exact findChannel_eq_of_first s c i h.1 h.2.1 h.2.2
  · rcases findChannel_spec s c with ⟨h1, _⟩ | ⟨j, h1, h2, _⟩
    · exact Or.inl h1
    · exact Or.inr ⟨j, h1, h2⟩

/-- C19: for a slot index `i` of the array and any channel, vRef and flag, after
`encodeChannelAt(i, channel, vRef, flag)` the decoders give `channel & 0x0f`, `vRef & 0x03`
and `flag`, and bit 6 of the stored byte is clear; so for channel in [0,15] and vRef in
[0,3] they give back exactly the channel, the vRef and the mode. The union cell of the slot
is untouched. -/
theorem C19_encoding_round_trip (s : FastADC) (i channel vRef : Nat) (flag : Bool)
    (hi : i < s.perChannelResults.length) :
    decodeChannelAt (encodeChannelAt s i channel vRef flag) i = channel &&& 0x0f ∧
    decodeVRefAt (encodeChannelAt s i channel vRef flag) i = vRef &&& 0x03 ∧
    isCallbackChannelAt (encodeChannelAt s i channel vRef flag) i = flag ∧
    ((slotAt (encodeChannelAt s i channel vRef flag) i).type_vRef_channel >>> 6) &&& 1 = 0 ∧
    (slotAt (encodeChannelAt s i channel vRef flag) i).type_vRef_channel < 256 ∧
    (slotAt (encodeChannelAt s i channel vRef flag) i).payload = (slotAt s i).payload ∧
    (channel ≤ 15 → vRef ≤ 3 →
      decodeChannelAt (encodeChannelAt s i channel vRef flag) i = channel ∧
      decodeVRefAt (encodeChannelAt s i channel vRef flag) i = vRef) := by
  have hs := slotAt_encodeChannelAt_self s i channel vRef flag hi
  have hc := decodeChannelAt_of_byte _ _ _ _ _ _ hs
  have hv := decodeVRefAt_of_byte _ _ _ _ _ _ hs
  have hf : boolToNat flag ≤ 1 := by cases flag <;> simp [boolToNat]
  have hbyte : (slotAt (encodeChannelAt s i channel vRef flag) i).type_vRef_channel
      = channel % 16 + 16 * (vRef % 4) + 128 * boolToNat flag := by
    rw [hs]
    exact encodeByte_eq channel vRef flag
  refine ⟨hc, hv, isCallbackChannelAt_of_byte _ _ _ _ _ _ hs, ?_, ?_, by rw [hs], ?_⟩
  · rw [hbyte, Nat.shiftRight_eq_div_pow]
    have h1 : ∀ x : Nat, x &&& 1 = x % 2 := fun x => Nat.and_pow_two_sub_one_eq_mod x 1
    have h6 : (2 : Nat) ^ 6 = 64 := by decide
    rw [h1, h6]
    omega
  · rw [hbyte]; omega
  · intro hc15 hv3
    rw [hc, hv, and_15_eq_mod, and_3_eq_mod]
    exact ⟨Nat.mod_eq_of_lt (by omega), Nat.mod_eq_of_lt (by omega)⟩

/-- C19 on slot 1 of the capacity-2 table: channel 5, selector 1, callback mode. -/
theorem C19_encoding_round_trip_witness :
    decodeChannelAt (encodeChannelAt demoTable 1 5 1 true) 1 = 5 ∧
    decodeVRefAt (encodeChannelAt demoTable 1 5 1 true) 1 = 1 ∧
    isCallbackChannelAt (encodeChannelAt demoTable 1 5 1 true) 1 = true :=
  ⟨((C19_encoding_round_trip demoTable 1 5 1 true (by decide)).2.2.2.2.2.2 (by decide)
      (by decide)).1,
   ((C19_encoding_round_trip demoTable 1 5 1 true (by decide)).2.2.2.2.2.2 (by decide)
      (by decide)).2,
   (C19_encoding_round_trip demoTable 1 5 1 true (by decide)).2.2.1⟩

theorem findChannel_out_of_range (s : FastADC) (c : Nat) (hc : 16 ≤ c) :
    findChannel s c = -1 := by
  apply (findChannel_not_found_iff s c).2
  intro k _
  have := decodeChannelAt_lt s k
  omega

/-- C20, as amended: for a channel argument `c >= 16` and every table state,
`findChannel(c)` is not-found and `read(c)` is `-1`, also right after a successful
`reference(c, vRef)`; and on a well-formed table with at least two free slots and
`numActiveChannels + 2 <= 255` (always so when `N <= 255`), calling `reference(c, vRef)`
twice succeeds twice, increases `numActiveChannels` by 2, and leaves the two new occupied
slots with the same decoded identity `c & 0x0f`. -/
theorem C20_out_of_range_channel (b : Build) (s : FastADC) (c vRef : Nat) (hc : 16 ≤ c) :
    findChannel s c = -1 ∧ read s c = -1 ∧
    read (reference b s c vRef).2 c = -1 ∧
    (WF b s → s.numActiveChannels + 2 ≤ b.N → s.numActiveChannels + 2 ≤ 255 →
      (reference b s c vRef).1 = true ∧
      (reference b (reference b s c vRef).2 c vRef).1 = true ∧
      (reference b (reference b s c vRef).2 c vRef).2.numActiveChannels
        = s.numActiveChannels + 2 ∧
      decodeChannelAt (reference b (reference b s c vRef).2 c vRef).2 s.numActiveChannels
        = c &&& 0x0f ∧
      decodeChannelAt (reference b (reference b s c vRef).2 c vRef).2
        (s.numActiveChannels + 1) = c &&& 0x0f) := by
  have hnf := findChannel_out_of_range s c hc
  refine ⟨hnf, read_of_not_found s c hnf,
    read_of_not_found _ c (findChannel_out_of_range _ c hc), ?_⟩
  intro hwf hfree h8
  have a1 := reference_appends b s c vRef hwf hnf (by omega) (by omega)
  have hwf1 := WF_reference b s c vRef hwf
  have hnf1 := findChannel_out_of_range (reference b s c vRef).2 c hc
  have a2 := reference_appends b (reference b s c vRef).2 c vRef hwf1 hnf1
    (by rw [a1.2.1]; omega) (by rw [a1.2.1]; omega)
  rw [a1.2.1] at a2
  refine ⟨a1.1, a2.1, a2.2.1, ?_, a2.2.2.1⟩
  rw [← a1.2.2.1]
  exact decodeChannelAt_of_byte_eq _ _ _
    (by rw [a2.2.2.2.2.2 s.numActiveChannels (by omega)])

/-- C20 on the fresh capacity-2 instance: two calls `reference(19, 0)` give two active
channels, both with identity 3, and `read(19)` is `-1`. -/
theorem C20_out_of_range_channel_witness :
    (reference demoBuild (reference demoBuild (fresh demoBuild) 19 0).2 19 0).2.numActiveChannels
      = 2 ∧
    decodeChannelAt (reference demoBuild (reference demoBuild (fresh demoBuild) 19 0).2 19 0).2 0
      = 3 ∧
    decodeChannelAt (reference demoBuild (reference demoBuild (fresh demoBuild) 19 0).2 19 0).2 1
      = 3 ∧
    read (reference demoBuild (fresh demoBuild) 19 0).2 19 = -1 :=
  ⟨((C20_out_of_range_channel demoBuild (fresh demoBuild) 19 0 (by decide)).2.2.2
      (by decide) (by decide) (by decide)).2.2.1,
   ((C20_out_of_range_channel demoBuild (fresh demoBuild) 19 0 (by decide)).2.2.2
      (by decide) (by decide) (by decide)).2.2.2.1,
   ((C20_out_of_range_channel demoBuild (fresh demoBuild) 19 0 (by decide)).2.2.2
      (by decide) (by decide) (by decide)).2.2.2.2,
   (C20_out_of_range_channel demoBuild (fresh demoBuild) 19 0 (by decide)).2.2.1⟩

theorem nearWrapTable_reached :
    registerAll wrapBuild (fresh wrapBuild) (List.replicate 254 (.reference 16 0))
      = nearWrapTable :=
  registerAll_16_wrapBuild 254 0 0 (by decide) rfl

/-- C20 as stated fails for capacity 256: on the table left by 254 calls `reference(16, 0)`,
with two free slots, two more calls `reference(16, 0)` both return true, but the 8-bit
counter goes from 254 to 255 and then wraps to 0 instead of reaching 256. -/
theorem C20_out_of_range_channel_counterexample :
    registerAll wrapBuild (fresh wrapBuild) (List.replicate 254 (.reference 16 0))
      = nearWrapTable ∧
    WF wrapBuild nearWrapTable ∧
    nearWrapTable.numActiveChannels + 2 ≤ wrapBuild.N ∧
    (reference wrapBuild nearWrapTable 16 0).1 = true ∧
    (reference wrapBuild (reference wrapBuild nearWrapTable 16 0).2 16 0).1 = true ∧
    (reference wrapBuild (reference wrapBuild nearWrapTable 16 0).2 16 0).2.numActiveChannels
      = 0 ∧
    (reference wrapBuild (reference wrapBuild nearWrapTable 16 0).2 16 0).2.numActiveChannels
      ≠ nearWrapTable.numActiveChannels + 2 := by
  have hwf : WF wrapBuild nearWrapTable := ⟨List.length_replicate 256 _, by decide⟩
  have e1 : reference wrapBuild nearWrapTable 16 0 = (true, wrapTable) :=
    reference_16_wrapBuild 254 28448 (by decide)
  have hnf := findChannel_wrapTable 16 (by decide)
  have hk : wrapTable.numActiveChannels < wrapBuild.N := by decide
  have e2 := reference_room wrapBuild wrapTable 16 0 hnf hk
  have h0 : (reference wrapBuild (reference wrapBuild nearWrapTable 16 0).2 16 0).2.numActiveChannels
      = 0 := by
    rw [e1, e2]
    rfl
  refine ⟨nearWrapTable_reached, hwf, by decide, by rw [e1], by rw [e1, e2], h0, ?_⟩
  rw [h0]
  decide

end FastADC
